import Mathlib

/-!
Verification of the trace-driven out-of-order pipeline simulator.

The definitions below are a shallow embedding of the C++ sources
(`pipeline.cpp`, `rob.cpp`, `rat.cpp` and their headers).  Arrays are
modelled as `List`s, machine integers as `Nat`/`Int` (with an explicit
`% 2^64` where a `uint64_t` counter is incremented), and the functions
mirror the C control flow statement by statement.  The execution queue
(`exeq.cpp`), the trace record layout (`trace.h`) and the top-level
simulation loop are not part of the provided sources; the definitions
standing in for them carry a doc comment starting `Modelled from the
spec:` and follow the specification's words.
-/

namespace PipeSim

/-- `MAX_ARF_REGS` from `rat.h`. -/
def MAX_ARF_REGS : Nat := 32

/-- `MAX_ROB_ENTRIES` from `rob.h`. -/
def MAX_ROB_ENTRIES : Nat := 256

/-- `MAX_WRITEBACKS` from `pipeline.h`. -/
def MAX_WRITEBACKS : Nat := 256

/-- `MAX_PIPE_WIDTH` from `pipeline.h`. -/
def MAX_PIPE_WIDTH : Nat := 8

/-- Wrap-around bound of a `uint64_t` counter. -/
def UINT64_LIMIT : Nat := 2 ^ 64

/-- `SchedulingPolicy` from `pipeline.h`. -/
inductive SchedulingPolicy where
  | SCHED_IN_ORDER
  | SCHED_OUT_OF_ORDER
  deriving Repr, DecidableEq, Inhabited

/-- The run-time configuration globals (`PIPE_WIDTH`, `NUM_ROB_ENTRIES`,
`SCHED_POLICY`, `LOAD_EXE_CYCLES` are `extern` globals in the sources;
`NUM_OP_TYPES` and the load op-type come from `trace.h`, which is not
among the provided sources, so those two fields are modelled from the
spec: a fixed op-type enumeration distinguishing the load class). -/
structure Config where
  PIPE_WIDTH : Nat
  NUM_ROB_ENTRIES : Nat
  SCHED_POLICY : SchedulingPolicy
  LOAD_EXE_CYCLES : Nat
  NUM_OP_TYPES : Nat
  OP_LD : Nat
  deriving Repr, DecidableEq, Inhabited

/-- The in-flight instruction record (`InstInfo`).  `trace.h` is not among
the provided sources; the field list is reconstructed from every use in
`pipeline.cpp` and `rob.cpp` (all fields are read or written there).
Register ids and rename tags are C `int`s using `-1` as sentinel, hence
`Int` here; `inst_num` is a `uint64_t`. -/
structure InstInfo where
  inst_num : Nat
  op_type : Nat
  dest_reg : Int
  src1_reg : Int
  src2_reg : Int
  dr_tag : Int
  src1_tag : Int
  src2_tag : Int
  src1_ready : Bool
  src2_ready : Bool
  exe_wait_cycles : Nat
  deriving Repr, DecidableEq, Inhabited

/-- One binary trace record.  `trace.h` is not among the provided
sources; modelled from the spec: op type, destination register id with a
"needed" flag, and two source register ids with "needed" flags.  The
byte-level layout is abstracted into one whole record; end of file is
modelled by the record list running out. -/
structure TraceRec where
  op_type : Nat
  dest_needed : Bool
  dest_reg : Nat
  src1_needed : Bool
  src1_reg : Nat
  src2_needed : Bool
  src2_reg : Nat
  deriving Repr, DecidableEq, Inhabited

/-! ## RAT (`rat.h` / `rat.cpp`) -/

/-- `RATEntry` from `rat.h`: a valid bit and the aliased ROB index
(`prf_id`, a `uint64_t`). -/
structure RATEntry where
  valid : Bool
  prf_id : Nat
  deriving Repr, DecidableEq, Inhabited

/-- `RAT` from `rat.h`: `MAX_ARF_REGS` entries indexed by architectural
register id. -/
structure RAT where
  entries : List RATEntry
  deriving Repr, DecidableEq, Inhabited

/-- `rat_init`. -/
def rat_init : RAT :=
  { entries := List.replicate MAX_ARF_REGS { valid := false, prf_id := 0 } }

/-- `rat_get_remap`.  The C code indexes `rat->entries[arf_id]` with no
bounds check and the pipeline's commit stage does pass `arf_id = -1`
(see claim C2): that access is out of bounds in the C source.  The model
totalizes the out-of-range case as "not aliased" so that it cannot be
confused with a real entry. -/
def rat_get_remap (rat : RAT) (arf_id : Int) : Int :=
  if 0 ≤ arf_id ∧ arf_id < (MAX_ARF_REGS : Int) then
    let e := rat.entries.getD arf_id.toNat default
    if e.valid then (e.prf_id : Int) else -1
  else
    -1

/-- `rat_set_remap`.  Out-of-range indices (never produced by the
pipeline: every `rat_set_remap` call is guarded by `dest_reg != -1`) are
totalized as a no-op. -/
def rat_set_remap (rat : RAT) (arf_id : Int) (prf_id : Int) : RAT :=
  if 0 ≤ arf_id ∧ arf_id < (MAX_ARF_REGS : Int) then
    { entries := rat.entries.set arf_id.toNat { valid := true, prf_id := prf_id.toNat } }
  else
    rat

/-- `rat_reset_entry`.  Out-of-range indices are totalized as a no-op. -/
def rat_reset_entry (rat : RAT) (arf_id : Int) : RAT :=
  if 0 ≤ arf_id ∧ arf_id < (MAX_ARF_REGS : Int) then
    { entries := rat.entries.set arf_id.toNat
        { (rat.entries.getD arf_id.toNat default) with valid := false } }
  else
    rat

/-! ## ROB (`rob.h` / `rob.cpp`)

The C `ROB` statically allocates `MAX_ROB_ENTRIES` slots but every
access computes indices modulo the configured `NUM_ROB_ENTRIES` (or uses
a rename tag, which is such an index), so only the first
`NUM_ROB_ENTRIES` slots are ever touched; the model carries exactly
those.  The configured capacity is passed explicitly where the C code
reads the `NUM_ROB_ENTRIES` global. -/

/-- `ROBEntry` from `rob.h`. -/
structure ROBEntry where
  valid : Bool
  exec : Bool
  ready : Bool
  inst : InstInfo
  deriving Repr, DecidableEq, Inhabited

/-- `ROB` from `rob.h`. -/
structure ROB where
  entries : List ROBEntry
  head_ptr : Nat
  tail_ptr : Nat
  deriving Repr, DecidableEq, Inhabited

/-- Read slot `i` (C `rob->entries[i]`). -/
def robGet (rob : ROB) (i : Nat) : ROBEntry :=
  rob.entries.getD i default

/-- Write slot `i`. -/
def robSet (rob : ROB) (i : Nat) (e : ROBEntry) : ROB :=
  { rob with entries := rob.entries.set i e }

/-- `rob_init` (restricted to the `NUM_ROB_ENTRIES` slots that are ever
accessed). -/
def rob_init (R : Nat) : ROB :=
  { entries := List.replicate R { valid := false, exec := false, ready := false, inst := default }
    head_ptr := 0
    tail_ptr := 0 }

/-- `rob_check_space`. -/
def rob_check_space (rob : ROB) : Bool :=
  if rob.tail_ptr = rob.head_ptr then
    if (robGet rob rob.head_ptr).valid = false then true else false
  else
    true

/-- `rob_insert`: returns the updated ROB together with the C return
value (the new index, or `-1` when there is no space). -/
def rob_insert (R : Nat) (rob : ROB) (inst : InstInfo) : ROB × Int :=
  if rob_check_space rob then
    let idx := rob.tail_ptr
    ({ robSet rob idx { valid := true, exec := false, ready := false, inst := inst } with
        tail_ptr := (rob.tail_ptr + 1) % R },
     (idx : Int))
  else
    (rob, -1)

/-- `rob_mark_exec`: sets the `exec` flag of the slot named by the
instruction's `dr_tag`.  Every caller passes an instruction taken from a
valid ROB slot, whose `dr_tag` is its own non-negative index. -/
def rob_mark_exec (rob : ROB) (inst : InstInfo) : ROB :=
  let i := inst.dr_tag.toNat
  robSet rob i { robGet rob i with exec := true }

/-- `rob_mark_ready`. -/
def rob_mark_ready (rob : ROB) (inst : InstInfo) : ROB :=
  let i := inst.dr_tag.toNat
  robSet rob i { robGet rob i with ready := true }

/-- `rob_check_ready`.  Callers guard the tag: it is a valid slot index. -/
def rob_check_ready (rob : ROB) (tag : Int) : Bool :=
  if (robGet rob tag.toNat).valid ∧ (robGet rob tag.toNat).ready then true else false

/-- `rob_check_head`. -/
def rob_check_head (rob : ROB) : Bool :=
  if rob_check_ready rob (rob.head_ptr : Int) then true else false

/-- The update applied to one slot by `rob_wakeup`'s loop body. -/
def wakeupEntry (tag : Int) (e : ROBEntry) : ROBEntry :=
  let e1 := if e.valid ∧ e.inst.src1_tag = tag then
              { e with inst := { e.inst with src1_ready := true } }
            else e
  if e1.valid ∧ e1.inst.src2_tag = tag then
    { e1 with inst := { e1.inst with src2_ready := true } }
  else e1

/-- The do/while traversal of `rob_wakeup`: visit slot `i`, step to
`(i+1) % R`, stop when the tail is reached.  `fuel` bounds the recursion;
`R` steps always suffice (the loop in C terminates for the same reason:
stepping modulo `R` reaches `tail < R` within `R` steps). -/
def wakeupGo (R : Nat) (tag : Int) (tail : Nat) :
    Nat → Nat → List ROBEntry → List ROBEntry
  | 0, _, es => es
  | fuel + 1, i, es =>
    let es' := es.set i (wakeupEntry tag (es.getD i default))
    let i' := (i + 1) % R
    if i' = tail then es' else wakeupGo R tag tail fuel i' es'

/-- `rob_wakeup`. -/
def rob_wakeup (R : Nat) (rob : ROB) (tag : Int) : ROB :=
  { rob with entries := wakeupGo R tag rob.tail_ptr R rob.head_ptr rob.entries }

/-- `rob_remove_head`: returns the updated ROB and the returned
instruction.  When the guard fails the C function returns an
uninitialized local (`InstInfo headEntry;`), modelled as `none`. -/
def rob_remove_head (R : Nat) (rob : ROB) : ROB × Option InstInfo :=
  if (robGet rob rob.head_ptr).valid ∧ (robGet rob rob.head_ptr).ready then
    let headEntry := (robGet rob rob.head_ptr).inst
    ({ robSet rob rob.head_ptr
         { robGet rob rob.head_ptr with valid := false, exec := false, ready := false } with
        head_ptr := (rob.head_ptr + 1) % R },
     some headEntry)
  else
    (rob, none)

/-! ## EXEQ

`exeq.cpp` / `exeq.h` are not among the provided sources (only their
callers in `pipeline.cpp` are), so the EXEQ is modelled from the spec
(§4.3). -/

/-- Modelled from the spec: an EXEQ entry is an (instruction,
remaining-cycles) pair. -/
structure EXEQEntry where
  inst : InstInfo
  remaining : Nat
  deriving Repr, DecidableEq, Inhabited

/-- Modelled from the spec: the EXEQ is an unordered collection of
currently-executing instructions, capacity `MAX_WRITEBACKS`. -/
structure EXEQ where
  entries : List EXEQEntry
  deriving Repr, DecidableEq, Inhabited

/-- Modelled from the spec: a fresh, empty EXEQ. -/
def exeq_init : EXEQ := { entries := [] }

/-- Modelled from the spec: `insert(inst)` adds the instruction with
remaining-cycles initialized from the op-type latency (loads use
`LOAD_EXE_CYCLES`, all others 1) and returns `false` when the queue is
full. -/
def exeq_insert (cfg : Config) (q : EXEQ) (inst : InstInfo) : EXEQ × Bool :=
  if MAX_WRITEBACKS ≤ q.entries.length then
    (q, false)
  else
    let lat := if inst.op_type = cfg.OP_LD then cfg.LOAD_EXE_CYCLES else 1
    ({ entries := q.entries ++ [{ inst := inst, remaining := lat }] }, true)

/-- Modelled from the spec: `cycle()` decrements remaining-cycles on
every entry; entries that reach zero become done. -/
def exeq_cycle (q : EXEQ) : EXEQ :=
  { entries := q.entries.map fun e => { e with remaining := e.remaining - 1 } }

/-- Modelled from the spec: `check_done()` is true iff at least one
entry is done. -/
def exeq_check_done (q : EXEQ) : Bool :=
  q.entries.any fun e => e.remaining = 0

/-- Modelled from the spec: `remove()` removes and returns one done
entry, preferring the smallest instruction number among done entries
(the spec's deterministic tie-break; the finish-cycle component of the
tie-break is not observable here because done entries are consumed in
the cycle they finish). -/
def exeq_remove (q : EXEQ) : EXEQ × InstInfo :=
  match q.entries.filter fun e => e.remaining = 0 with
  | [] => (q, default)
  | d :: ds =>
    let best := ds.foldl (fun b e => if e.inst.inst_num < b.inst.inst_num then e else b) d
    ({ entries := q.entries.eraseP fun e => decide (e = best) }, best.inst)

/-! ## Pipeline state (`pipeline.h`) -/

/-- `PipelineLatch` from `pipeline.h`. -/
structure PipelineLatch where
  valid : Bool
  stall : Bool
  inst : InstInfo
  deriving Repr, DecidableEq, Inhabited

/-- The `Pipeline` struct from `pipeline.h`.  The trace file descriptor
is replaced by the list of remaining trace records; `next_decode_num`
is the function-static `next_inst_num` counter of `pipe_cycle_decode`.
The four `…_log` fields are ghost observation logs: they record events
(they are only ever appended to) and no stage reads them, so they do
not influence the dynamics. -/
structure Pipeline where
  FE_latch : List PipelineLatch
  ID_latch : List PipelineLatch
  SC_latch : List PipelineLatch
  EX_latch : List PipelineLatch
  rob : ROB
  rat : RAT
  exeq : EXEQ
  stat_retired_inst : Nat
  stat_num_cycle : Nat
  trace : List TraceRec
  last_inst_num : Nat
  halt_inst_num : Nat
  halt : Bool
  next_decode_num : Nat
  retired_log : List Nat
  sched_log : List (Nat × Nat)
  wb_log : List (Nat × Nat)
  rat_log : List Int
  deriving Repr, DecidableEq, Inhabited

/-- An empty (calloc-zeroed, then `valid := false`) latch. -/
def emptyLatch : PipelineLatch := { valid := false, stall := false, inst := default }

/-- `pipe_init`. -/
def pipe_init (cfg : Config) (trace : List TraceRec) : Pipeline :=
  { FE_latch := List.replicate cfg.PIPE_WIDTH emptyLatch
    ID_latch := List.replicate cfg.PIPE_WIDTH emptyLatch
    SC_latch := List.replicate cfg.PIPE_WIDTH emptyLatch
    EX_latch := List.replicate MAX_WRITEBACKS emptyLatch
    rob := rob_init cfg.NUM_ROB_ENTRIES
    rat := rat_init
    exeq := exeq_init
    stat_retired_inst := 0
    stat_num_cycle := 0
    trace := trace
    last_inst_num := 0
    halt_inst_num := UINT64_LIMIT - 4
    halt := false
    next_decode_num := 1
    retired_log := []
    sched_log := []
    wb_log := []
    rat_log := [] }

/-! ## Fetch stage -/

/-- The pipeline fields read and written by `pipe_fetch_inst`. -/
structure FetchSt where
  trace : List TraceRec
  last_inst_num : Nat
  halt_inst_num : Nat
  halt : Bool
  deriving Repr, DecidableEq, Inhabited

/-- `pipe_fetch_inst`: read one trace record into the given FE latch.
An exhausted record list models EOF (`bytes_read_total == 0`); a record
with an out-of-range op type models the "invalid trace file" branch
(the record is consumed, the latch stays invalid). -/
def pipe_fetch_inst (cfg : Config) (retired : Nat) (s : FetchSt)
    (fe_latch : PipelineLatch) : FetchSt × PipelineLatch :=
  match s.trace with
  | [] =>
    ({ s with halt_inst_num := s.last_inst_num
              halt := s.halt || decide (s.last_inst_num ≤ retired) },
     { fe_latch with valid := false })
  | r :: rest =>
    if cfg.NUM_OP_TYPES ≤ r.op_type then
      ({ trace := rest
         last_inst_num := s.last_inst_num
         halt_inst_num := s.last_inst_num
         halt := s.halt || decide (s.last_inst_num ≤ retired) },
       { fe_latch with valid := false })
    else
      let n := (s.last_inst_num + 1) % UINT64_LIMIT
      ({ trace := rest
         last_inst_num := n
         halt_inst_num := s.halt_inst_num
         halt := s.halt },
       { valid := true
         stall := false
         inst := { inst_num := n
                   op_type := r.op_type
                   dest_reg := if r.dest_needed then (r.dest_reg : Int) else -1
                   src1_reg := if r.src1_needed then (r.src1_reg : Int) else -1
                   src2_reg := if r.src2_needed then (r.src2_reg : Int) else -1
                   dr_tag := -1
                   src1_tag := -1
                   src2_tag := -1
                   src1_ready := false
                   src2_ready := false
                   exe_wait_cycles := 0 } })

/-- The fetch loop over the FE latches. -/
def fetchGo (cfg : Config) (retired : Nat) :
    FetchSt → List PipelineLatch → FetchSt × List PipelineLatch
  | s, [] => (s, [])
  | s, l :: rest =>
    if !l.stall && !l.valid then
      let fi := pipe_fetch_inst cfg retired s l
      let r := fetchGo cfg retired fi.1 rest
      (r.1, fi.2 :: r.2)
    else
      let r := fetchGo cfg retired s rest
      (r.1, l :: r.2)

/-- `pipe_cycle_fetch`. -/
def pipe_cycle_fetch (cfg : Config) (p : Pipeline) : Pipeline :=
  let r := fetchGo cfg p.stat_retired_inst
      { trace := p.trace, last_inst_num := p.last_inst_num
        halt_inst_num := p.halt_inst_num, halt := p.halt } p.FE_latch
  { p with FE_latch := r.2, trace := r.1.trace, last_inst_num := r.1.last_inst_num
           halt_inst_num := r.1.halt_inst_num, halt := r.1.halt }

/-! ## Decode stage -/

/-- The inner search of `pipe_cycle_decode`: find the first valid FE
latch holding instruction number `n`, returning it together with the FE
latches with that slot invalidated. -/
def fe_take (n : Nat) : List PipelineLatch → Option (PipelineLatch × List PipelineLatch)
  | [] => none
  | l :: ls =>
    if l.valid && l.inst.inst_num == n then
      some (l, { l with valid := false } :: ls)
    else
      match fe_take n ls with
      | some (x, ls') => some (x, l :: ls')
      | none => none

/-- The decode loop over the ID latches, threading the FE latches and
the static `next_inst_num` counter. -/
def decodeGo : List PipelineLatch → Nat → List PipelineLatch →
    List PipelineLatch × Nat × List PipelineLatch
  | fe, next, [] => ([], next, fe)
  | fe, next, idl :: rest =>
    if !idl.stall && !idl.valid then
      match fe_take next fe with
      | some (l, fe1) =>
        let r := decodeGo fe1 (next + 1) rest
        (l :: r.1, r.2.1, r.2.2)
      | none =>
        let r := decodeGo fe next rest
        (idl :: r.1, r.2.1, r.2.2)
    else
      let r := decodeGo fe next rest
      (idl :: r.1, r.2.1, r.2.2)

/-- `pipe_cycle_decode`. -/
def pipe_cycle_decode (p : Pipeline) : Pipeline :=
  let r := decodeGo p.FE_latch p.next_decode_num p.ID_latch
  { p with ID_latch := r.1, FE_latch := r.2.2, next_decode_num := r.2.1 }

/-! ## Issue stage -/

/-- The sort key of the issue stage's bubble sort. -/
def latchKey (l : PipelineLatch) : Nat := l.inst.inst_num

/-- One bubble pass restricted to the first `m` adjacent pairs, exactly
the inner loop `for (j = 0; j < PIPE_WIDTH - i - 1; j++)` of
`pipe_cycle_issue` (swap when the left key is strictly greater). -/
def bubblePassN : Nat → List PipelineLatch → List PipelineLatch
  | 0, l => l
  | _ + 1, [] => []
  | _ + 1, [a] => [a]
  | m + 1, a :: b :: rest =>
    if latchKey b < latchKey a then
      b :: bubblePassN m (a :: rest)
    else
      a :: bubblePassN m (b :: rest)

/-- The outer loop of the bubble sort: passes with bounds
`w-1, w-2, …, 1`. -/
def bubbleIter : Nat → List PipelineLatch → List PipelineLatch
  | 0, l => l
  | k + 1, l => bubbleIter k (bubblePassN (k + 1) l)

/-- The full ID-latch bubble sort of `pipe_cycle_issue`. -/
def id_sort (w : Nat) (l : List PipelineLatch) : List PipelineLatch :=
  bubbleIter (w - 1) l

/-- An unbounded bubble pass (what `bubblePassN m` computes on a list of
length at most `m + 1`); used only to reason about the sort. -/
def bubblePassFull : List PipelineLatch → List PipelineLatch
  | [] => []
  | [a] => [a]
  | a :: b :: rest =>
    if latchKey b < latchKey a then b :: bubblePassFull (a :: rest)
    else a :: bubblePassFull (b :: rest)
termination_by l => l.length

/-- Source renaming for one operand (`pipe_cycle_issue` lines guarding
on `src_reg != -1`): returns the new tag, the new ready flag, and the
architectural indices passed to `rat_get_remap`.  When the register is
not needed the stored tag and flag are left as they were. -/
def issueRenameSrc (rob : ROB) (rat : RAT) (reg : Int) (tag0 : Int) (ready0 : Bool) :
    Int × Bool × List Int :=
  if reg ≠ -1 then
    let t := rat_get_remap rat reg
    if t = -1 ∨ rob_check_ready rob t then
      (t, true, [reg])
    else
      (t, false, [reg])
  else
    (tag0, ready0, [])

/-- One lane's insert-and-rename (`pipe_cycle_issue`, body of the
space-available branch).  Returns the new ROB and RAT, whether the ID
latch was invalidated (i.e. `rob_insert` returned a tag), and the
architectural indices passed to RAT operations, in call order. -/
def issueOne (cfg : Config) (rob : ROB) (rat : RAT) (inst : InstInfo) :
    ROB × RAT × Bool × List Int :=
  let ins := rob_insert cfg.NUM_ROB_ENTRIES rob inst
  let rob1 := ins.1
  let idx := ins.2
  if idx ≠ -1 then
    let i := idx.toNat
    let e1 := robGet rob1 i
    let s1 := issueRenameSrc rob1 rat e1.inst.src1_reg e1.inst.src1_tag e1.inst.src1_ready
    let rob2 := robSet rob1 i
      { e1 with inst := { e1.inst with src1_tag := s1.1, src1_ready := s1.2.1 } }
    let e2 := robGet rob2 i
    let s2 := issueRenameSrc rob2 rat e2.inst.src2_reg e2.inst.src2_tag e2.inst.src2_ready
    let rob3 := robSet rob2 i
      { e2 with inst := { e2.inst with src2_tag := s2.1, src2_ready := s2.2.1 } }
    let e3 := robGet rob3 i
    let rob4 := robSet rob3 i { e3 with inst := { e3.inst with dr_tag := idx } }
    let e4 := robGet rob4 i
    if e4.inst.dest_reg ≠ -1 then
      (rob4, rat_set_remap rat e4.inst.dest_reg idx, true,
       s1.2.2 ++ s2.2.2 ++ [e4.inst.dest_reg])
    else
      (rob4, rat, true, s1.2.2 ++ s2.2.2)
  else
    (rob1, rat, false, [])

/-- The issue loop over the (sorted) ID latches, threading the
`prev_ID_stall` flag, the ROB and the RAT. -/
def issueGo (cfg : Config) :
    Bool → ROB → RAT → List Int → List PipelineLatch →
    ROB × RAT × List Int × List PipelineLatch
  | _, rob, rat, log, [] => (rob, rat, log, [])
  | prev, rob, rat, log, l :: rest =>
    let l0 := { l with stall := prev }
    if l0.stall then
      let r := issueGo cfg prev rob rat log rest
      (r.1, r.2.1, r.2.2.1, l0 :: r.2.2.2)
    else if l0.valid then
      if rob_check_space rob then
        let o := issueOne cfg rob rat l0.inst
        let l1 := if o.2.2.1 then { l0 with valid := false } else l0
        let r := issueGo cfg l1.stall o.1 o.2.1 (log ++ o.2.2.2) rest
        (r.1, r.2.1, r.2.2.1, l1 :: r.2.2.2)
      else
        let l1 := { l0 with stall := true }
        let r := issueGo cfg l1.stall rob rat log rest
        (r.1, r.2.1, r.2.2.1, l1 :: r.2.2.2)
    else
      let r := issueGo cfg prev rob rat log rest
      (r.1, r.2.1, r.2.2.1, l0 :: r.2.2.2)

/-- `pipe_cycle_issue`. -/
def pipe_cycle_issue (cfg : Config) (p : Pipeline) : Pipeline :=
  let sorted := id_sort cfg.PIPE_WIDTH p.ID_latch
  let r := issueGo cfg false p.rob p.rat [] sorted
  { p with rob := r.1, rat := r.2.1, ID_latch := r.2.2.2
           rat_log := p.rat_log ++ r.2.2.1 }

/-! ## Schedule stage -/

/-- The in-order do/while scan of `pipe_cycle_schedule` for one lane:
walk the ROB from the head; at the oldest valid non-executing entry,
either schedule it (mark exec, fill the SC latch) or clear the SC latch,
and stop either way.  Also reports the scheduled instruction number.
`fuel = NUM_ROB_ENTRIES` bounds the walk exactly as the modular step
bounds the C loop. -/
def schedScanInOrder (cfg : Config) (rob : ROB) (lane : PipelineLatch) :
    Nat → Nat → ROB × PipelineLatch × Option Nat
  | 0, _ => (rob, lane, none)
  | fuel + 1, j =>
    let e := robGet rob j
    if e.valid = true ∧ e.exec = false then
      let src1_ready := e.inst.src1_reg = -1 ∨ e.inst.src1_ready = true
      let src2_ready := e.inst.src2_reg = -1 ∨ e.inst.src2_ready = true
      if ¬src1_ready ∨ ¬src2_ready then
        (rob, { lane with valid := false }, none)
      else
        (rob_mark_exec rob e.inst, { lane with inst := e.inst, valid := true },
         some e.inst.inst_num)
    else
      let j' := (j + 1) % cfg.NUM_ROB_ENTRIES
      if j' = rob.tail_ptr then (rob, lane, none)
      else schedScanInOrder cfg rob lane fuel j'

/-- The out-of-order do/while scan for one lane: like the in-order scan
but a non-ready entry only clears the SC latch and the walk continues to
younger entries. -/
def schedScanOOO (cfg : Config) (rob : ROB) :
    PipelineLatch → Nat → Nat → ROB × PipelineLatch × Option Nat
  | lane, 0, _ => (rob, lane, none)
  | lane, fuel + 1, j =>
    let e := robGet rob j
    if e.valid = true ∧ e.exec = false then
      let src1_ready := e.inst.src1_reg = -1 ∨ e.inst.src1_ready = true
      let src2_ready := e.inst.src2_reg = -1 ∨ e.inst.src2_ready = true
      if ¬src1_ready ∨ ¬src2_ready then
        let lane' := { lane with valid := false }
        let j' := (j + 1) % cfg.NUM_ROB_ENTRIES
        if j' = rob.tail_ptr then (rob, lane', none)
        else schedScanOOO cfg rob lane' fuel j'
      else
        (rob_mark_exec rob e.inst, { lane with inst := e.inst, valid := true },
         some e.inst.inst_num)
    else
      let j' := (j + 1) % cfg.NUM_ROB_ENTRIES
      if j' = rob.tail_ptr then (rob, lane, none)
      else schedScanOOO cfg rob lane fuel j'

/-- The schedule loop over the SC lanes, threading the ROB and logging
(cycle, instruction number) for every scheduled instruction. -/
def schedGo (cfg : Config) (cycle : Nat) :
    ROB → List (Nat × Nat) → List PipelineLatch →
    ROB × List (Nat × Nat) × List PipelineLatch
  | rob, log, [] => (rob, log, [])
  | rob, log, lane :: rest =>
    let r :=
      match cfg.SCHED_POLICY with
      | SchedulingPolicy.SCHED_IN_ORDER =>
        schedScanInOrder cfg rob lane cfg.NUM_ROB_ENTRIES rob.head_ptr
      | SchedulingPolicy.SCHED_OUT_OF_ORDER =>
        schedScanOOO cfg rob lane cfg.NUM_ROB_ENTRIES rob.head_ptr
    let log1 := match r.2.2 with
      | some n => log ++ [(cycle, n)]
      | none => log
    let r2 := schedGo cfg cycle r.1 log1 rest
    (r2.1, r2.2.1, r.2.1 :: r2.2.2)

/-- `pipe_cycle_schedule`. -/
def pipe_cycle_schedule (cfg : Config) (p : Pipeline) : Pipeline :=
  let r := schedGo cfg p.stat_num_cycle p.rob p.sched_log p.SC_latch
  { p with rob := r.1, SC_latch := r.2.2, sched_log := r.2.1 }

/-! ## Execute stage -/

/-- The single-cycle path of `pipe_cycle_exe` (`LOAD_EXE_CYCLES == 1`):
copy each valid SC latch to the EX latch of the same index and
invalidate it. -/
def exeCopySC : List PipelineLatch → List PipelineLatch →
    List PipelineLatch × List PipelineLatch
  | [], exs => ([], exs)
  | scs, [] => (scs, [])
  | sc :: scs, ex :: exs =>
    if sc.valid then
      let r := exeCopySC scs exs
      ({ sc with valid := false } :: r.1, sc :: r.2)
    else
      let r := exeCopySC scs exs
      (sc :: r.1, ex :: r.2)

/-- The SC-to-EXEQ drain of the multi-cycle path.  On a full EXEQ the C
code prints an error, sets the halt flag and returns from the stage at
once, so the failing SC latch stays valid and the remaining lanes are
untouched; the `Bool` reports that overflow. -/
def exeDrain (cfg : Config) : EXEQ → List PipelineLatch →
    EXEQ × List PipelineLatch × Bool
  | q, [] => (q, [], false)
  | q, sc :: rest =>
    if sc.valid then
      let ins := exeq_insert cfg q sc.inst
      if ins.2 then
        let r := exeDrain cfg ins.1 rest
        (r.1, { sc with valid := false } :: r.2.1, r.2.2)
      else
        (q, sc :: rest, true)
    else
      let r := exeDrain cfg q rest
      (r.1, sc :: r.2.1, r.2.2)

/-- The EXEQ-to-EX transfer of the multi-cycle path: fill successive EX
latches with done entries while any remain. -/
def exeTransfer : EXEQ → List PipelineLatch → EXEQ × List PipelineLatch
  | q, [] => (q, [])
  | q, ex :: rest =>
    if exeq_check_done q then
      let rem := exeq_remove q
      let r := exeTransfer rem.1 rest
      (r.1, { valid := true, stall := false, inst := rem.2 } :: r.2)
    else
      (q, ex :: rest)

/-- `pipe_cycle_exe`. -/
def pipe_cycle_exe (cfg : Config) (p : Pipeline) : Pipeline :=
  if cfg.LOAD_EXE_CYCLES = 1 then
    let r := exeCopySC p.SC_latch p.EX_latch
    { p with SC_latch := r.1, EX_latch := r.2 }
  else
    let d := exeDrain cfg p.exeq p.SC_latch
    if d.2.2 then
      { p with exeq := d.1, SC_latch := d.2.1, halt := true }
    else
      let q2 := exeq_cycle d.1
      let t := exeTransfer q2 p.EX_latch
      { p with exeq := t.1, SC_latch := d.2.1, EX_latch := t.2 }

/-! ## Writeback stage -/

/-- The writeback loop over the EX latches, threading the ROB and
logging (cycle, instruction number) for every written-back
instruction. -/
def wbGo (cfg : Config) (cycle : Nat) :
    ROB → List (Nat × Nat) → List PipelineLatch →
    ROB × List (Nat × Nat) × List PipelineLatch
  | rob, log, [] => (rob, log, [])
  | rob, log, l :: rest =>
    if l.stall = false ∧ l.valid = true then
      let rob1 := rob_wakeup cfg.NUM_ROB_ENTRIES rob l.inst.dr_tag
      let rob2 := rob_mark_ready rob1 l.inst
      let r := wbGo cfg cycle rob2 (log ++ [(cycle, l.inst.inst_num)]) rest
      (r.1, r.2.1, { l with valid := false } :: r.2.2)
    else
      let r := wbGo cfg cycle rob log rest
      (r.1, r.2.1, l :: r.2.2)

/-- `pipe_cycle_writeback`. -/
def pipe_cycle_writeback (cfg : Config) (p : Pipeline) : Pipeline :=
  let r := wbGo cfg p.stat_num_cycle p.rob p.wb_log p.EX_latch
  { p with rob := r.1, EX_latch := r.2.2, wb_log := r.2.1 }

/-! ## Commit stage -/

/-- The pipeline fields read and written by `pipe_cycle_commit`. -/
structure CommitSt where
  rob : ROB
  rat : RAT
  ID_latch : List PipelineLatch
  stat_retired_inst : Nat
  halt_inst_num : Nat
  halt : Bool
  retired_log : List Nat
  rat_log : List Int
  deriving Repr, DecidableEq, Inhabited

/-- `pipe_commit_inst`: bump the retired counter (a `uint64_t`) and set
the halt flag once the halt instruction number is reached.  The ghost
`retired_log` records the committed instruction number. -/
def pipe_commit_inst (s : CommitSt) (inst : InstInfo) : CommitSt :=
  { s with stat_retired_inst := (s.stat_retired_inst + 1) % UINT64_LIMIT
           retired_log := s.retired_log ++ [inst.inst_num]
           halt := s.halt || decide (s.halt_inst_num ≤ inst.inst_num) }

/-- One iteration `i` of the commit loop.  Note that
`rat_get_remap(p->rat, headEntry.dest_reg)` is called unconditionally,
also when `dest_reg` is the `-1` sentinel (the ghost `rat_log` records
each architectural index passed to a RAT operation). -/
def commit_lane (cfg : Config) (s : CommitSt) (i : Nat) : CommitSt :=
  if rob_check_head s.rob then
    match rob_remove_head cfg.NUM_ROB_ENTRIES s.rob with
    | (rob1, some headEntry) =>
      let s1 := pipe_commit_inst { s with rob := rob1 } headEntry
      let idx := rat_get_remap s1.rat headEntry.dest_reg
      let s2 := { s1 with rat_log := s1.rat_log ++ [headEntry.dest_reg] }
      let s3 :=
        if idx = headEntry.dr_tag then
          { s2 with rat := rat_reset_entry s2.rat headEntry.dest_reg
                    rat_log := s2.rat_log ++ [headEntry.dest_reg] }
        else s2
      let stallv := if rob_check_space s3.rob then false else true
      let slot := { s3.ID_latch.getD i default with stall := stallv }
      { s3 with ID_latch := s3.ID_latch.set i slot }
    | (rob1, none) => { s with rob := rob1 }
  else s

/-- The commit loop: `n` remaining iterations, current index `i`. -/
def commitGo (cfg : Config) : Nat → Nat → CommitSt → CommitSt
  | 0, _, s => s
  | n + 1, i, s => commitGo cfg n (i + 1) (commit_lane cfg s i)

/-- `pipe_cycle_commit`. -/
def pipe_cycle_commit (cfg : Config) (p : Pipeline) : Pipeline :=
  let s := commitGo cfg cfg.PIPE_WIDTH 0
    { rob := p.rob, rat := p.rat, ID_latch := p.ID_latch
      stat_retired_inst := p.stat_retired_inst
      halt_inst_num := p.halt_inst_num, halt := p.halt
      retired_log := p.retired_log, rat_log := p.rat_log }
  { p with rob := s.rob, rat := s.rat, ID_latch := s.ID_latch
           stat_retired_inst := s.stat_retired_inst, halt := s.halt
           retired_log := s.retired_log, rat_log := s.rat_log }

/-! ## One cycle and runs -/

/-- `pipe_cycle`: bump the cycle counter, then run the seven stages in
reverse order. -/
def pipe_cycle (cfg : Config) (p : Pipeline) : Pipeline :=
  let p0 := { p with stat_num_cycle := (p.stat_num_cycle + 1) % UINT64_LIMIT }
  pipe_cycle_fetch cfg
    (pipe_cycle_decode
      (pipe_cycle_issue cfg
        (pipe_cycle_schedule cfg
          (pipe_cycle_exe cfg
            (pipe_cycle_writeback cfg
              (pipe_cycle_commit cfg p0))))))

/-- Run exactly `n` cycles (no halt test), for stating per-cycle
invariants. -/
def runCycles (cfg : Config) : Nat → Pipeline → Pipeline
  | 0, p => p
  | n + 1, p => runCycles cfg n (pipe_cycle cfg p)

/-- Modelled from the spec: the top-level simulation loop (not among
the provided sources) calls `pipe_cycle` until the pipeline's halt flag
is set.  `fuel` bounds the iteration so the function is total; the loop
performs no further cycle once `halt` is set. -/
def runLoop (cfg : Config) : Nat → Pipeline → Pipeline
  | 0, p => p
  | n + 1, p => if p.halt then p else runLoop cfg n (pipe_cycle cfg p)

/-! ## Derived notions and concrete inputs used by the theorems -/

/-- The data model's fullness condition (spec §3): `head == tail` and
the slot at the head is valid. -/
def robFull (rob : ROB) : Prop :=
  rob.tail_ptr = rob.head_ptr ∧ (robGet rob rob.head_ptr).valid = true

instance (rob : ROB) : Decidable (robFull rob) := by
  unfold robFull
  infer_instance

/-- A scalar in-order configuration: width 1, 4 ROB entries,
single-cycle loads (the configuration of the spec's scenarios (a) and
(b)); the op-type enumeration is fixed arbitrarily. -/
def cfgScalar : Config :=
  { PIPE_WIDTH := 1, NUM_ROB_ENTRIES := 4
    SCHED_POLICY := SchedulingPolicy.SCHED_IN_ORDER
    LOAD_EXE_CYCLES := 1, NUM_OP_TYPES := 8, OP_LD := 4 }

/-- A trace record with no destination and no sources (a NOP). -/
def nopRec : TraceRec :=
  { op_type := 0, dest_needed := false, dest_reg := 0
    src1_needed := false, src1_reg := 0, src2_needed := false, src2_reg := 0 }

/-- The RAW-dependency trace of the spec's scenario (b): I1 writes r1
and has no sources; I2 reads r1 and has no destination. -/
def traceRAW : List TraceRec :=
  [ { op_type := 0, dest_needed := true, dest_reg := 1
      src1_needed := false, src1_reg := 0, src2_needed := false, src2_reg := 0 },
    { op_type := 0, dest_needed := false, dest_reg := 0
      src1_needed := true, src1_reg := 1, src2_needed := false, src2_reg := 0 } ]

/-- The halted end state of the scenario-(b) run (30 cycles of loop
fuel are ample: the run halts during cycle 9). -/
def runRAW : Pipeline := runLoop cfgScalar 30 (pipe_init cfgScalar traceRAW)

/-- The halted end state of the single-NOP run (scenario (a)). -/
def runNop : Pipeline := runLoop cfgScalar 30 (pipe_init cfgScalar [nopRec])

/-- A one-entry ROB whose single slot holds a committed-ready
instruction writing r1 with tag 0 (input for the C7 witness). -/
def robW : ROB :=
  { entries := [ { valid := true, exec := true, ready := true
                   inst := { (default : InstInfo) with inst_num := 1, dest_reg := 1, dr_tag := 0 } } ]
    head_ptr := 0
    tail_ptr := 0 }

/-- A width-1, one-ROB-entry configuration (input for the C7 witness). -/
def cfgW : Config :=
  { PIPE_WIDTH := 1, NUM_ROB_ENTRIES := 1
    SCHED_POLICY := SchedulingPolicy.SCHED_IN_ORDER
    LOAD_EXE_CYCLES := 1, NUM_OP_TYPES := 8, OP_LD := 4 }

/-- A commit-stage state whose RAT still aliases r1 to tag 0 (input for
the C7 witness). -/
def commitStW : CommitSt :=
  { rob := robW, rat := rat_set_remap rat_init 1 0, ID_latch := [emptyLatch]
    stat_retired_inst := 0, halt_inst_num := 5, halt := false
    retired_log := [], rat_log := [] }

/-- A valid un-stalled latch holding the default instruction (input for
the C9 witness). -/
def latchV : PipelineLatch := { valid := true, stall := false, inst := default }

/-- A multi-cycle-load configuration (input for the C8 witness). -/
def cfgMC : Config :=
  { PIPE_WIDTH := 1, NUM_ROB_ENTRIES := 4
    SCHED_POLICY := SchedulingPolicy.SCHED_IN_ORDER
    LOAD_EXE_CYCLES := 2, NUM_OP_TYPES := 8, OP_LD := 4 }

/-- A full EXEQ: `MAX_WRITEBACKS` entries (input for the C8 witness). -/
def exeqFull : EXEQ :=
  { entries := List.replicate MAX_WRITEBACKS { inst := default, remaining := 1 } }

/-- A pipeline state about to overflow the EXEQ: one valid SC latch and
a full EXEQ (input for the C8 witness). -/
def pOvf : Pipeline :=
  { pipe_init cfgMC [] with
      SC_latch := [{ valid := true, stall := false, inst := default }]
      exeq := exeqFull }

/-- The index list traversed by the `rob_wakeup` do/while loop: start
at `i`, step modulo `R`, stop when the next index is `tail`, visiting at
most `fuel` slots. -/
def loopSeq (R tail : Nat) : Nat → Nat → List Nat
  | 0, _ => []
  | fuel + 1, i => i :: (if (i + 1) % R = tail then [] else loopSeq R tail fuel ((i + 1) % R))

/-- Apply the wakeup update at each index of `js` in order. -/
def wakeupApply (tag : Int) (js : List Nat) (es : List ROBEntry) : List ROBEntry :=
  js.foldl (fun es j => es.set j (wakeupEntry tag (es.getD j default))) es

/-- `n` successive ring positions starting at `s`, modulo `R`. -/
def ringSeq (R s n : Nat) : List Nat :=
  (List.range n).map fun d => (s + d) % R

/-- The number of slots the `rob_wakeup` traversal visits when it
starts at `h` with tail `t` (capacity `R`): the ring distance from `h`
to `t` counted so that `h = t` gives a full lap of `R` slots. -/
def wakeupSpan (R h t : Nat) : Nat :=
  (t + R - (h + 1)) % R + 1

/-- Slot `i` is visited by the wakeup traversal from `h` to `t`. -/
def wakeupVisited (R h t i : Nat) : Prop :=
  i ∈ ringSeq R h (wakeupSpan R h t)

instance (R h t i : Nat) : Decidable (wakeupVisited R h t i) := by
  unfold wakeupVisited
  infer_instance

/-- Membership of `i` in the half-open ring interval from `h`
(inclusive) to `t` (exclusive), for `h ≠ t`. -/
def ringMember (h t i : Nat) : Prop :=
  if h < t then h ≤ i ∧ i < t else h ≤ i ∨ i < t

instance (h t i : Nat) : Decidable (ringMember h t i) := by
  unfold ringMember
  infer_instance

/-- Wakeup totality for tag `t` (spec §8, invariant 4): no valid ROB
entry whose source tag equals `t` still has that source's ready flag
false. -/
def srcWoken (rob : ROB) (t : Int) : Prop :=
  ∀ i, i < rob.entries.length → (robGet rob i).valid = true →
    ((robGet rob i).inst.src1_tag = t → (robGet rob i).inst.src1_ready = true) ∧
    ((robGet rob i).inst.src2_tag = t → (robGet rob i).inst.src2_ready = true)

instance (rob : ROB) (t : Int) : Decidable (srcWoken rob t) := by
  unfold srcWoken
  infer_instance

/-- A width-1 configuration with a two-entry ROB (input for the C6
witness). -/
def cfgR2 : Config :=
  { PIPE_WIDTH := 1, NUM_ROB_ENTRIES := 2
    SCHED_POLICY := SchedulingPolicy.SCHED_IN_ORDER
    LOAD_EXE_CYCLES := 1, NUM_OP_TYPES := 8, OP_LD := 4 }

/-- A full two-entry ROB: slot 0 a finished producer of r1 (tag 0),
slot 1 a consumer whose src1 waits on tag 0 (input for the C6
witness). -/
def robWake : ROB :=
  { entries :=
      [ { valid := true, exec := true, ready := false
          inst := { (default : InstInfo) with inst_num := 1, dest_reg := 1, dr_tag := 0 } },
        { valid := true, exec := false, ready := false
          inst := { (default : InstInfo) with
                      inst_num := 2, src1_reg := 1, src1_tag := 0, dr_tag := 1 } } ]
    head_ptr := 0
    tail_ptr := 0 }

/-- An EX latch carrying the finished producer (input for the C6
witness). -/
def exL : PipelineLatch :=
  { valid := true, stall := false
    inst := { (default : InstInfo) with inst_num := 1, dest_reg := 1, dr_tag := 0 } }

/-- A pipeline about to write back the producer in `exL` through
`robWake` (input for the C6 witness). -/
def pWB : Pipeline :=
  { pipe_init cfgR2 [] with rob := robWake, EX_latch := [exL] }

/-- The circular-buffer invariant of the ROB with `R` slots after `c`
commits while `k` instructions are in flight: the valid slots are
exactly the `k` ring positions from `head` (inclusive) to `tail`
(exclusive), and in ring order they hold instructions numbered
`c+1, c+2, …, c+k`. -/
structure RingInv (R c k : Nat) (rob : ROB) : Prop where
  hlen : rob.entries.length = R
  hhead : rob.head_ptr < R
  htail : rob.tail_ptr < R
  hk : k ≤ R
  htailk : rob.tail_ptr = (rob.head_ptr + k) % R
  hring : ∀ m, m < k →
    (robGet rob ((rob.head_ptr + m) % R)).valid = true ∧
    (robGet rob ((rob.head_ptr + m) % R)).inst.inst_num = c + 1 + m
  hvalidonly : ∀ i, i < R → (robGet rob i).valid = true →
    ∃ m, m < k ∧ i = (rob.head_ptr + m) % R

/-- Two ROBs with the same pointers and, slot for slot, the same
validity and instruction number (the data `RingInv` talks about). -/
def RobRingEq (rob rob' : ROB) : Prop :=
  rob'.head_ptr = rob.head_ptr ∧ rob'.tail_ptr = rob.tail_ptr ∧
  rob'.entries.length = rob.entries.length ∧
  ∀ i, (robGet rob' i).valid = (robGet rob i).valid ∧
       (robGet rob' i).inst.inst_num = (robGet rob i).inst.inst_num

/-- The instruction numbers held by the valid latches of a latch file,
in latch order. -/
def validNums (lanes : List PipelineLatch) : List Nat :=
  (lanes.filter fun l => l.valid).map fun l => l.inst.inst_num

/-- The whole-pipeline bookkeeping invariant behind the commit-order
property: with `c` instructions retired and `k` in flight in the ROB,
the retired log reads `1..c`, the ROB ring holds `c+1..c+k`, the ID
latches hold the decoded-but-not-issued interval up to
`next_decode_num`, and the FE latches hold the fetched-but-not-decoded
interval up to `last_inst_num`; the trace left is short enough that no
`uint64` counter wraps. -/
def InvK (cfg : Config) (p : Pipeline) : Prop :=
  ∃ c k,
    RingInv cfg.NUM_ROB_ENTRIES c k p.rob
    ∧ p.stat_retired_inst = c
    ∧ p.retired_log = List.range' 1 c
    ∧ c + 1 + k ≤ p.next_decode_num
    ∧ p.next_decode_num ≤ p.last_inst_num + 1
    ∧ (validNums p.ID_latch).Perm
        (List.range' (c + 1 + k) (p.next_decode_num - (c + 1 + k)))
    ∧ (validNums p.FE_latch).Perm
        (List.range' p.next_decode_num (p.last_inst_num + 1 - p.next_decode_num))
    ∧ p.ID_latch.length = cfg.PIPE_WIDTH
    ∧ p.last_inst_num + p.trace.length < UINT64_LIMIT

/-! ## Basic ROB facts -/

theorem rob_check_head_iff (rob : ROB) :
    rob_check_head rob = true ↔
      ((robGet rob rob.head_ptr).valid = true ∧ (robGet rob rob.head_ptr).ready = true) := by
  unfold rob_check_head rob_check_ready
  simp only [Int.toNat_natCast]
  split <;> simp_all

/-- Claim C5: `rob_insert` on a non-full ROB writes the instruction into
the slot at `tail` with `valid` set and `exec`/`ready` cleared, advances
`tail` by one modulo the capacity, and returns that slot's index; on a
full ROB it returns `-1` and changes nothing; and `rob_check_space`
returns true exactly when the ROB is not full (distinguishing the
`head == tail` empty case from the `head == tail` full case by the
validity of the head slot). -/
theorem rob_insert_spec (R : Nat) (rob : ROB) (inst : InstInfo) :
    (rob_check_space rob = true ↔ ¬ robFull rob)
    ∧ (¬ robFull rob →
        rob_insert R rob inst =
          ({ entries := rob.entries.set rob.tail_ptr
               { valid := true, exec := false, ready := false, inst := inst }
             head_ptr := rob.head_ptr
             tail_ptr := (rob.tail_ptr + 1) % R }, (rob.tail_ptr : Int)))
    ∧ (robFull rob → rob_insert R rob inst = (rob, -1)) := by
  have hspace : rob_check_space rob = true ↔ ¬ robFull rob := by
    unfold rob_check_space robFull
    split
    · rename_i hht
      split
      · rename_i hv
        simp [hht, hv]
      · rename_i hv
        simp only [Bool.not_eq_false] at hv
        simp [hht, hv]
    · rename_i hht
      simp [hht]
  refine ⟨hspace, ?_, ?_⟩
  · intro h
    have hs : rob_check_space rob = true := hspace.mpr h
    unfold rob_insert
    simp [hs, robSet]
  · intro h
    have hs : ¬ (rob_check_space rob = true) := by
      intro hc
      exact (hspace.mp hc) h
    unfold rob_insert
    simp [hs]

/-- Witness for C5 at a concrete non-full and a concrete full ROB. -/
theorem rob_insert_spec_witness :
    (¬ robFull (rob_init 2)) ∧
      rob_insert 2 (rob_init 2) default =
        ({ entries := (rob_init 2).entries.set 0
             { valid := true, exec := false, ready := false, inst := default }
           head_ptr := 0
           tail_ptr := 1 }, 0) := by
  refine ⟨by decide, ?_⟩
  have h := (rob_insert_spec 2 (rob_init 2) default).2.1 (by decide)
  simpa using h

/-- Claim C10: when `rob_remove_head` is called while the head slot is
not both valid and ready, the ROB is left entirely unchanged and the
returned instruction is the C function's uninitialized local, modelled
as `none`. -/
theorem rob_remove_head_violated_precondition (R : Nat) (rob : ROB)
    (h : ¬ ((robGet rob rob.head_ptr).valid = true ∧
            (robGet rob rob.head_ptr).ready = true)) :
    rob_remove_head R rob = (rob, none) := by
  unfold rob_remove_head
  simp [h]

/-- Witness for C10 at a freshly initialized (empty, hence
not-valid-head) ROB. -/
theorem rob_remove_head_violated_precondition_witness :
    rob_remove_head 4 (rob_init 4) = (rob_init 4, none) :=
  rob_remove_head_violated_precondition 4 (rob_init 4) (by decide)

theorem rat_get_remap_eq_tag_iff (rat : RAT) (r t : Int)
    (h0 : 0 ≤ r) (h1 : r < (MAX_ARF_REGS : Int)) (ht : 0 ≤ t) :
    rat_get_remap rat r = t ↔
      ((rat.entries.getD r.toNat default).valid = true ∧
        ((rat.entries.getD r.toNat default).prf_id : Int) = t) := by
  unfold rat_get_remap
  rw [if_pos ⟨h0, h1⟩]
  show (if (rat.entries.getD r.toNat default).valid = true
      then ((rat.entries.getD r.toNat default).prf_id : Int) else -1) = t ↔ _
  split
  · rename_i hv
    constructor
    · intro he
      exact ⟨hv, he⟩
    · rintro ⟨-, he⟩
      exact he
  · rename_i hv
    constructor
    · intro he
      omega
    · rintro ⟨hv', -⟩
      exact absurd hv' hv

/-- Claim C7: when the commit stage retires an instruction that writes
a destination register, it resets that register's RAT entry exactly
when the entry is still aliased to the committed instruction's own ROB
tag; a re-aliased (or un-aliased) entry leaves the whole RAT
unchanged. -/
theorem commit_lane_rat_reset_iff (cfg : Config) (s : CommitSt) (i : Nat)
    (hhead : rob_check_head s.rob = true)
    (hd0 : 0 ≤ (robGet s.rob s.rob.head_ptr).inst.dest_reg)
    (hd1 : (robGet s.rob s.rob.head_ptr).inst.dest_reg < (MAX_ARF_REGS : Int))
    (ht : 0 ≤ (robGet s.rob s.rob.head_ptr).inst.dr_tag) :
    (commit_lane cfg s i).rat =
      (if (s.rat.entries.getD (robGet s.rob s.rob.head_ptr).inst.dest_reg.toNat default).valid = true
          ∧ ((s.rat.entries.getD (robGet s.rob s.rob.head_ptr).inst.dest_reg.toNat default).prf_id : Int)
              = (robGet s.rob s.rob.head_ptr).inst.dr_tag
       then rat_reset_entry s.rat (robGet s.rob s.rob.head_ptr).inst.dest_reg
       else s.rat) := by
  have hvr := (rob_check_head_iff s.rob).mp hhead
  have hremove : rob_remove_head cfg.NUM_ROB_ENTRIES s.rob =
      ({ robSet s.rob s.rob.head_ptr
           { robGet s.rob s.rob.head_ptr with valid := false, exec := false, ready := false } with
          head_ptr := (s.rob.head_ptr + 1) % cfg.NUM_ROB_ENTRIES },
       some (robGet s.rob s.rob.head_ptr).inst) := by
    unfold rob_remove_head
    rw [if_pos hvr]
  have hiff := rat_get_remap_eq_tag_iff s.rat
      (robGet s.rob s.rob.head_ptr).inst.dest_reg
      (robGet s.rob s.rob.head_ptr).inst.dr_tag hd0 hd1 ht
  unfold commit_lane
  rw [if_pos hhead, hremove]
  simp only [pipe_commit_inst]
  split
  · rename_i hc
    have hc' := hiff.mp hc
    rw [if_pos hc']
  · rename_i hc
    have hc' : ¬ ((s.rat.entries.getD (robGet s.rob s.rob.head_ptr).inst.dest_reg.toNat default).valid = true
        ∧ ((s.rat.entries.getD (robGet s.rob s.rob.head_ptr).inst.dest_reg.toNat default).prf_id : Int)
            = (robGet s.rob s.rob.head_ptr).inst.dr_tag) := fun h => hc (hiff.mpr h)
    rw [if_neg hc']

/-- Witness for C7: in `commitStW` the RAT still aliases r1 to the
committed instruction's tag 0, and the commit resets that entry. -/
theorem commit_lane_rat_reset_iff_witness :
    (commit_lane cfgW commitStW 0).rat = rat_reset_entry commitStW.rat 1 := by
  have h := commit_lane_rat_reset_iff cfgW commitStW 0
    (by decide) (by decide) (by decide) (by decide)
  rw [h]
  decide

/-! ## Concrete runs (claims C2, C3, C4) -/

set_option maxRecDepth 200000

/-- Claim C2 (code bug): over the whole single-NOP run, exactly one RAT
operation is invoked, and its architectural-register argument is the
sentinel `-1`: the commit stage calls
`rat_get_remap(p->rat, headEntry.dest_reg)` unconditionally, also for a
committed instruction with no destination (`dest_reg == -1`), an
out-of-bounds access of `rat->entries`.  (`rat_log` records the
architectural index of every RAT operation the pipeline invokes, in
call order.) -/
theorem commit_passes_minus_one_to_rat :
    runNop.rat_log = [-1] ∧ runNop.stat_retired_inst = 1 ∧ runNop.halt = true := by
  refine ⟨?_, ?_, ?_⟩ <;> rfl

/-- Claim C4, counterexample: on the RAW trace with the stated
configuration the run takes 9 cycles, not 8, and I2 is scheduled in
cycle 6 — the very cycle in which I1 is written back, not one cycle
after it. -/
theorem raw_run_not_eight_cycles :
    runRAW.stat_num_cycle ≠ 8 ∧
      runRAW.sched_log = [(4, 1), (6, 2)] ∧
      runRAW.wb_log = [(6, 1), (8, 2)] := by
  refine ⟨by decide, ?_, ?_⟩ <;> rfl

/-- Claim C4, amended: the RAW run retires exactly the two
instructions, takes 9 cycles in total, and I2's schedule happens in the
same cycle (6) as I1's writeback. -/
theorem raw_run_behaviour :
    runRAW.halt = true ∧
      runRAW.stat_retired_inst = 2 ∧
      runRAW.stat_num_cycle = 9 ∧
      runRAW.retired_log = [1, 2] ∧
      runRAW.sched_log = [(4, 1), (6, 2)] ∧
      runRAW.wb_log = [(6, 1), (8, 2)] := by
  refine ⟨?_, ?_, ?_, ?_, ?_, ?_⟩ <;> rfl

/-- Claim C3, counterexample: in the RAW run, the producer I1 is
written back in cycle 6 and its dependent consumer I2 is scheduled in
that same cycle 6 — an instruction whose producer is written back in
cycle t can be scheduled in cycle t. -/
theorem same_cycle_wakeup_schedule :
    (6, 1) ∈ runRAW.wb_log ∧ (6, 2) ∈ runRAW.sched_log ∧
      runRAW.wb_log.head? = some (6, 1) := by
  refine ⟨?_, ?_, ?_⟩ <;> decide

/-- Claim C3, amended: within one cycle the stages run in reverse
pipeline order — commit, writeback, execute, schedule, issue, decode,
fetch — so the schedule stage reads the ROB already updated by the same
cycle's writeback; readiness established by writeback in cycle t is
therefore visible to schedule in cycle t (the RAW run exhibits this in
cycle 6), and what the reverse order forbids is same-cycle forwarding
in the upstream-to-downstream direction. -/
theorem reverse_order_same_cycle_wakeup :
    (∀ (cfg : Config) (p : Pipeline),
      pipe_cycle cfg p =
        pipe_cycle_fetch cfg
          (pipe_cycle_decode
            (pipe_cycle_issue cfg
              (pipe_cycle_schedule cfg
                (pipe_cycle_exe cfg
                  (pipe_cycle_writeback cfg
                    (pipe_cycle_commit cfg
                      { p with stat_num_cycle := (p.stat_num_cycle + 1) % UINT64_LIMIT })))))))
    ∧ runRAW.wb_log = [(6, 1), (8, 2)]
    ∧ runRAW.sched_log = [(4, 1), (6, 2)] := by
  refine ⟨fun cfg p => rfl, ?_, ?_⟩ <;> rfl

/-! ## Claim C8: EXEQ overflow is fatal -/

/-- Claim C8: with multi-cycle loads, when draining a valid SC latch
into the EXEQ fails, the execute stage sets the halt flag and returns
at once (the remaining SC latches, the EXEQ and the EX latches are left
as they were at the failure point and `exeq_cycle` is not run); the
insertion fails exactly when the EXEQ is full; the drain stops at the
failing lane, leaving it and everything after it untouched; and the
main loop performs no further cycle once the halt flag is set. -/
theorem exe_overflow_halts (cfg : Config) (p : Pipeline)
    (hmc : ¬ cfg.LOAD_EXE_CYCLES = 1)
    (hov : (exeDrain cfg p.exeq p.SC_latch).2.2 = true) :
    pipe_cycle_exe cfg p =
      { p with exeq := (exeDrain cfg p.exeq p.SC_latch).1
               SC_latch := (exeDrain cfg p.exeq p.SC_latch).2.1
               halt := true }
    ∧ (∀ (q : EXEQ) (inst : InstInfo),
        (exeq_insert cfg q inst).2 = false ↔ MAX_WRITEBACKS ≤ q.entries.length)
    ∧ (∀ (q : EXEQ) (sc : PipelineLatch) (rest : List PipelineLatch),
        sc.valid = true → (exeq_insert cfg q sc.inst).2 = false →
          exeDrain cfg q (sc :: rest) = (q, sc :: rest, true))
    ∧ (∀ (n : Nat) (p' : Pipeline), p'.halt = true → runLoop cfg n p' = p') := by
  refine ⟨?_, ?_, ?_, ?_⟩
  · unfold pipe_cycle_exe
    rw [if_neg hmc]
    dsimp only
    rw [if_pos hov]
  · intro q inst
    unfold exeq_insert
    split
    · rename_i hfull
      simp [hfull]
    · rename_i hfull
      simp [hfull]
  · intro q sc rest hv hfail
    unfold exeDrain
    rw [if_pos hv]
    dsimp only
    rw [if_neg (by simp [hfail])]
  · intro n
    induction n with
    | zero => intro p' _; rfl
    | succ n ih =>
      intro p' hh
      unfold runLoop
      rw [if_pos hh]

/-- Witness for C8: a full EXEQ and one valid SC latch make the execute
stage halt the pipeline. -/
theorem exe_overflow_halts_witness :
    (pipe_cycle_exe cfgMC pOvf).halt = true ∧
      (pipe_cycle_exe cfgMC pOvf).SC_latch = pOvf.SC_latch ∧
      (pipe_cycle_exe cfgMC pOvf).EX_latch = pOvf.EX_latch ∧
      runLoop cfgMC 5 (pipe_cycle_exe cfgMC pOvf) = pipe_cycle_exe cfgMC pOvf := by
  have h := exe_overflow_halts cfgMC pOvf (by decide) (by rfl)
  refine ⟨?_, ?_, ?_, ?_⟩
  · rw [h.1]
  · rw [h.1]
    show (exeDrain cfgMC pOvf.exeq pOvf.SC_latch).2.1 = pOvf.SC_latch
    rfl
  · rw [h.1]
  · exact h.2.2.2 5 (pipe_cycle_exe cfgMC pOvf) (by rw [h.1])

/-! ## Claim C9: stalling is monotone across issue lanes -/

theorem issueGo_stalled_absorbs (cfg : Config) :
    ∀ (lanes : List PipelineLatch) (rob : ROB) (rat : RAT) (log : List Int),
      issueGo cfg true rob rat log lanes =
        (rob, rat, log, lanes.map fun l => { l with stall := true }) := by
  intro lanes
  induction lanes with
  | nil =>
    intro rob rat log
    rfl
  | cons l rest ih =>
    intro rob rat log
    show issueGo cfg true rob rat log (l :: rest) = _
    unfold issueGo
    rw [if_pos rfl, ih rob rat log]
    rfl

theorem map_stall_all_true (lanes : List PipelineLatch) :
    ((lanes.map fun l => { l with stall := true }).map fun l => l.stall)
      = List.replicate lanes.length true := by
  induction lanes with
  | nil => rfl
  | cons l rest ih => simp [ih, List.replicate_succ]

theorem issueGo_stall_shape (cfg : Config) :
    ∀ (lanes : List PipelineLatch) (prev : Bool) (rob : ROB) (rat : RAT) (log : List Int),
      ∃ k, ((issueGo cfg prev rob rat log lanes).2.2.2.map fun l => l.stall)
        = List.replicate k false ++ List.replicate (lanes.length - k) true := by
  intro lanes
  induction lanes with
  | nil =>
    intro prev rob rat log
    exact ⟨0, rfl⟩
  | cons l rest ih =>
    intro prev rob rat log
    cases prev with
    | true =>
      refine ⟨0, ?_⟩
      rw [issueGo_stalled_absorbs cfg (l :: rest) rob rat log]
      simpa using map_stall_all_true (l :: rest)
    | false =>
      unfold issueGo
      rw [if_neg (by simp)]
      by_cases hv : ({ l with stall := false } : PipelineLatch).valid = true
      · rw [if_pos hv]
        by_cases hs : rob_check_space rob = true
        · rw [if_pos hs]
          dsimp only
          have hstall : (if (issueOne cfg rob rat l.inst).2.2.1 = true
              then { l with stall := false, valid := false }
              else ({ l with stall := false } : PipelineLatch)).stall = false := by
            split <;> rfl
          rw [hstall]
          rcases ih false (issueOne cfg rob rat l.inst).1
              (issueOne cfg rob rat l.inst).2.1
              (log ++ (issueOne cfg rob rat l.inst).2.2.2) with ⟨k, hk⟩
          refine ⟨k + 1, ?_⟩
          have hhead : (if (issueOne cfg rob rat l.inst).2.2.1 = true
              then { l with stall := false, valid := false }
              else ({ l with stall := false } : PipelineLatch)).stall = false := hstall
          simp only [List.map_cons, hk, hhead, List.length_cons, List.replicate_succ,
            Nat.succ_sub_succ, List.cons_append]
        · rw [if_neg hs]
          dsimp only
          rw [issueGo_stalled_absorbs cfg rest rob rat log]
          refine ⟨0, ?_⟩
          simp [map_stall_all_true rest, List.replicate_succ]
      · rw [if_neg hv]
        dsimp only
        rcases ih false rob rat log with ⟨k, hk⟩
        refine ⟨k + 1, ?_⟩
        simp only [List.map_cons, hk, List.length_cons, List.replicate_succ,
          Nat.succ_sub_succ, List.cons_append]

/-- Claim C9: within one issue stage, stalling is monotone across
lanes: the final stall flags form an un-stalled prefix followed by a
stalled suffix; once `prev_ID_stall` is set, every later lane is only
marked stalled and neither the ROB nor the RAT changes; and when a
valid ID slot finds no ROB space, that slot and every subsequent slot
are marked stalled and nothing further is inserted into the ROB that
cycle. -/
theorem issue_stall_monotone (cfg : Config) :
    (∀ (lanes : List PipelineLatch) (prev : Bool) (rob : ROB) (rat : RAT) (log : List Int),
      ∃ k, ((issueGo cfg prev rob rat log lanes).2.2.2.map fun l => l.stall)
        = List.replicate k false ++ List.replicate (lanes.length - k) true)
    ∧ (∀ (lanes : List PipelineLatch) (rob : ROB) (rat : RAT) (log : List Int),
        issueGo cfg true rob rat log lanes =
          (rob, rat, log, lanes.map fun l => { l with stall := true }))
    ∧ (∀ (l : PipelineLatch) (rest : List PipelineLatch) (rob : ROB) (rat : RAT)
          (log : List Int),
        l.valid = true → rob_check_space rob = false →
          issueGo cfg false rob rat log (l :: rest) =
            (rob, rat, log,
              { l with stall := true } :: rest.map fun x => { x with stall := true })) := by
  refine ⟨issueGo_stall_shape cfg, issueGo_stalled_absorbs cfg, ?_⟩
  intro l rest rob rat log hval hspace
  unfold issueGo
  rw [if_neg (by simp)]
  rw [if_pos (show ({ l with stall := false } : PipelineLatch).valid = true from hval)]
  rw [if_neg (by simp [hspace])]
  dsimp only
  rw [issueGo_stalled_absorbs cfg rest rob rat log]

/-- Witness for C9: a full one-entry ROB stalls both valid lanes and
inserts nothing. -/
theorem issue_stall_monotone_witness :
    issueGo cfgW false robW rat_init [] [latchV, latchV] =
      (robW, rat_init, [],
        [{ latchV with stall := true }, { latchV with stall := true }]) := by
  rw [(issue_stall_monotone cfgW).2.2 latchV [latchV] robW rat_init []
    (by decide) (by decide)]
  rfl

/-! ## Claim C6: wakeup coverage and writeback totality -/

theorem mod_two_R (x R : Nat) (h0 : 0 < R) (h : x < 2 * R) :
    x % R = if x < R then x else x - R := by
  split
  · exact Nat.mod_eq_of_lt (by assumption)
  · rename_i hge
    push_neg at hge
    rw [Nat.mod_eq_sub_mod hge]
    exact Nat.mod_eq_of_lt (by omega)

theorem wakeupGo_eq_apply (R : Nat) (tag : Int) (tail : Nat) :
    ∀ (fuel i : Nat) (es : List ROBEntry),
      wakeupGo R tag tail fuel i es = wakeupApply tag (loopSeq R tail fuel i) es := by
  intro fuel
  induction fuel with
  | zero => intro i es; rfl
  | succ fuel ih =>
    intro i es
    unfold wakeupGo loopSeq
    dsimp only
    by_cases hc : (i + 1) % R = tail
    · rw [if_pos hc, if_pos hc]
      rfl
    · rw [if_neg hc, if_neg hc, ih]
      rfl

theorem wakeupSpan_pos (R h t : Nat) : 0 < wakeupSpan R h t := by
  unfold wakeupSpan
  omega

theorem wakeupSpan_le (R h t : Nat) (h0 : 0 < R) : wakeupSpan R h t ≤ R := by
  unfold wakeupSpan
  have := Nat.mod_lt (t + R - (h + 1)) h0
  omega

theorem wakeupSpan_eq_one_iff (R h t : Nat) (h0 : 0 < R) (hh : h < R) (ht : t < R) :
    wakeupSpan R h t = 1 ↔ (h + 1) % R = t := by
  unfold wakeupSpan
  rw [mod_two_R (t + R - (h + 1)) R h0 (by omega),
      mod_two_R (h + 1) R h0 (by omega)]
  constructor
  · intro he
    split at he <;> split <;> omega
  · intro he
    split at he <;> split <;> omega

theorem wakeupSpan_step (R h t : Nat) (h0 : 0 < R) (hh : h < R) (ht : t < R)
    (h2 : 2 ≤ wakeupSpan R h t) :
    wakeupSpan R ((h + 1) % R) t = wakeupSpan R h t - 1 := by
  unfold wakeupSpan at h2 ⊢
  rw [mod_two_R (h + 1) R h0 (by omega)]
  rw [mod_two_R (t + R - (h + 1)) R h0 (by omega)] at h2 ⊢
  split
  · rename_i hlt
    rw [mod_two_R (t + R - (h + 1 + 1)) R h0 (by omega)]
    split at h2 <;> split <;> (try split) <;> omega
  · rename_i hge
    have h10 : h + 1 - R = 0 := by omega
    rw [h10]
    rw [mod_two_R (t + R - (0 + 1)) R h0 (by omega)]
    split at h2 <;> split <;> (try split) <;> omega

theorem ringSeq_succ (R i n : Nat) :
    ringSeq R i (n + 1) = (i % R) :: ringSeq R ((i + 1) % R) n := by
  unfold ringSeq
  rw [List.range_succ_eq_map]
  simp only [List.map_cons, List.map_map, Nat.add_zero]
  refine congrArg (List.cons (i % R)) ?_
  refine List.map_congr_left ?_
  intro d _
  show (i + Nat.succ d) % R = ((i + 1) % R + d) % R
  rw [Nat.mod_add_mod]
  congr 1
  omega

theorem loopSeq_eq_ringSeq (R t : Nat) (h0 : 0 < R) (ht : t < R) :
    ∀ (n fuel i : Nat), i < R → wakeupSpan R i t = n → n ≤ fuel →
      loopSeq R t fuel i = ringSeq R i n := by
  intro n
  induction n with
  | zero =>
    intro fuel i _ hspan _
    have := wakeupSpan_pos R i t
    omega
  | succ m ih =>
    intro fuel i hi hspan hfuel
    match fuel with
    | 0 => omega
    | fuel + 1 =>
      unfold loopSeq
      cases m with
      | zero =>
        have hstep : (i + 1) % R = t := (wakeupSpan_eq_one_iff R i t h0 hi ht).mp hspan
        rw [if_pos hstep]
        have h1 : ringSeq R i 1 = [i % R] := rfl
        rw [h1, Nat.mod_eq_of_lt hi]
      | succ m' =>
        have hne : ¬ (i + 1) % R = t := by
          intro he
          have := (wakeupSpan_eq_one_iff R i t h0 hi ht).mpr he
          omega
        rw [if_neg hne]
        have hstep := wakeupSpan_step R i t h0 hi ht (by omega)
        rw [hspan] at hstep
        have hrec := ih fuel ((i + 1) % R) (Nat.mod_lt _ h0) (by omega) (by omega)
        rw [hrec, ringSeq_succ R i (m' + 1), Nat.mod_eq_of_lt hi]

theorem ringSeq_mem_iff (R s n i : Nat) :
    i ∈ ringSeq R s n ↔ ∃ d, d < n ∧ i = (s + d) % R := by
  unfold ringSeq
  simp only [List.mem_map, List.mem_range]
  constructor
  · rintro ⟨d, hd, he⟩
    exact ⟨d, hd, he.symm⟩
  · rintro ⟨d, hd, he⟩
    exact ⟨d, hd, he.symm⟩

theorem ringSeq_nodup (R s n : Nat) (h0 : 0 < R) (hn : n ≤ R) :
    (ringSeq R s n).Nodup := by
  unfold ringSeq
  refine List.Nodup.map_on ?_ (List.nodup_range n)
  intro d1 h1 d2 h2 heq
  rw [List.mem_range] at h1 h2
  have hm : d1 % R = d2 % R := Nat.ModEq.add_left_cancel' s heq
  rw [Nat.mod_eq_of_lt (by omega), Nat.mod_eq_of_lt (by omega)] at hm
  exact hm

theorem wakeupApply_length (tag : Int) :
    ∀ (js : List Nat) (es : List ROBEntry),
      (wakeupApply tag js es).length = es.length := by
  intro js
  induction js with
  | nil => intro es; rfl
  | cons j js ih =>
    intro es
    show (wakeupApply tag js (es.set j (wakeupEntry tag (es.getD j default)))).length = _
    rw [ih, List.length_set]

theorem wakeupApply_getD (tag : Int) :
    ∀ (js : List Nat) (es : List ROBEntry), js.Nodup → (∀ j ∈ js, j < es.length) →
      ∀ i, (wakeupApply tag js es).getD i default =
        if i ∈ js then wakeupEntry tag (es.getD i default) else es.getD i default := by
  intro js
  induction js with
  | nil =>
    intro es _ _ i
    simp [wakeupApply]
  | cons j js ih =>
    intro es hnd hlt i
    have hnd' : js.Nodup := hnd.of_cons
    have hjnotmem : j ∉ js := by
      intro hmem
      exact (List.nodup_cons.mp hnd).1 hmem
    have hlt' : ∀ x ∈ js, x < (es.set j (wakeupEntry tag (es.getD j default))).length := by
      intro x hx
      rw [List.length_set]
      exact hlt x (List.mem_cons_of_mem j hx)
    have hstep : wakeupApply tag (j :: js) es =
        wakeupApply tag js (es.set j (wakeupEntry tag (es.getD j default))) := rfl
    rw [hstep, ih _ hnd' hlt' i]
    by_cases hij : i = j
    · subst hij
      rw [if_neg hjnotmem, if_pos (List.mem_cons_self i js)]
      have hilen : i < es.length := hlt i (List.mem_cons_self i js)
      rw [List.getD_eq_getElem?_getD, List.getElem?_set_eq (by omega),
          List.getD_eq_getElem?_getD]
      simp
    · have hset : (es.set j (wakeupEntry tag (es.getD j default))).getD i default
          = es.getD i default := by
        rw [List.getD_eq_getElem?_getD, List.getElem?_set_ne (fun h => hij h.symm),
            List.getD_eq_getElem?_getD]
      rw [hset]
      by_cases hmem : i ∈ js
      · rw [if_pos hmem, if_pos (List.mem_cons_of_mem j hmem)]
      · rw [if_neg hmem, if_neg (by
          intro hc
          rcases List.mem_cons.mp hc with hc1 | hc2
          · exact hij hc1
          · exact hmem hc2)]

theorem rob_wakeup_getD (R : Nat) (rob : ROB) (tag : Int)
    (h0 : 0 < R) (hlen : rob.entries.length = R)
    (hh : rob.head_ptr < R) (ht : rob.tail_ptr < R) :
    (rob_wakeup R rob tag).head_ptr = rob.head_ptr
    ∧ (rob_wakeup R rob tag).tail_ptr = rob.tail_ptr
    ∧ ∀ i, robGet (rob_wakeup R rob tag) i =
        if wakeupVisited R rob.head_ptr rob.tail_ptr i
        then wakeupEntry tag (robGet rob i) else robGet rob i := by
  refine ⟨rfl, rfl, ?_⟩
  intro i
  have hseq : loopSeq R rob.tail_ptr R rob.head_ptr =
      ringSeq R rob.head_ptr (wakeupSpan R rob.head_ptr rob.tail_ptr) :=
    loopSeq_eq_ringSeq R rob.tail_ptr h0 ht _ R rob.head_ptr hh rfl
      (wakeupSpan_le R rob.head_ptr rob.tail_ptr h0)
  have hnodup : (ringSeq R rob.head_ptr (wakeupSpan R rob.head_ptr rob.tail_ptr)).Nodup :=
    ringSeq_nodup R rob.head_ptr _ h0 (wakeupSpan_le R rob.head_ptr rob.tail_ptr h0)
  have hbound : ∀ j ∈ ringSeq R rob.head_ptr (wakeupSpan R rob.head_ptr rob.tail_ptr),
      j < rob.entries.length := by
    intro j hj
    rcases (ringSeq_mem_iff R rob.head_ptr _ j).mp hj with ⟨d, _, he⟩
    rw [he, hlen]
    exact Nat.mod_lt _ h0
  have hgo : (rob_wakeup R rob tag).entries =
      wakeupApply tag (ringSeq R rob.head_ptr (wakeupSpan R rob.head_ptr rob.tail_ptr))
        rob.entries := by
    show wakeupGo R tag rob.tail_ptr R rob.head_ptr rob.entries = _
    rw [wakeupGo_eq_apply, hseq]
  show (rob_wakeup R rob tag).entries.getD i default = _
  rw [hgo, wakeupApply_getD tag _ rob.entries hnodup hbound i]
  rfl

theorem wakeupEntry_fields (tag : Int) (e : ROBEntry) :
    (wakeupEntry tag e).inst.src1_ready
        = (if e.valid = true ∧ e.inst.src1_tag = tag then true else e.inst.src1_ready)
    ∧ (wakeupEntry tag e).inst.src2_ready
        = (if e.valid = true ∧ e.inst.src2_tag = tag then true else e.inst.src2_ready)
    ∧ (wakeupEntry tag e).valid = e.valid
    ∧ (wakeupEntry tag e).exec = e.exec
    ∧ (wakeupEntry tag e).ready = e.ready
    ∧ (wakeupEntry tag e).inst.src1_tag = e.inst.src1_tag
    ∧ (wakeupEntry tag e).inst.src2_tag = e.inst.src2_tag := by
  unfold wakeupEntry
  dsimp only
  by_cases h1 : e.valid = true ∧ e.inst.src1_tag = tag
  · rw [if_pos h1]
    by_cases h2 : e.valid = true ∧ e.inst.src2_tag = tag
    · rw [if_pos (by simpa using h2)]
      refine ⟨?_, ?_, rfl, rfl, rfl, rfl, rfl⟩
      · rw [if_pos h1]
      · rw [if_pos h2]
    · rw [if_neg (by simpa using h2)]
      refine ⟨?_, ?_, rfl, rfl, rfl, rfl, rfl⟩
      · rw [if_pos h1]
      · rw [if_neg h2]
  · rw [if_neg h1]
    by_cases h2 : e.valid = true ∧ e.inst.src2_tag = tag
    · rw [if_pos h2]
      refine ⟨?_, ?_, rfl, rfl, rfl, rfl, rfl⟩
      · rw [if_neg h1]
      · rw [if_pos h2]
    · rw [if_neg h2]
      refine ⟨?_, ?_, rfl, rfl, rfl, rfl, rfl⟩
      · rw [if_neg h1]
      · rw [if_neg h2]

theorem wakeupSpan_full (R h : Nat) (h0 : 0 < R) (hh : h < R) :
    wakeupSpan R h h = R := by
  unfold wakeupSpan
  have : h + R - (h + 1) = R - 1 := by omega
  rw [this, Nat.mod_eq_of_lt (by omega)]
  omega

theorem wakeupVisited_full (R h : Nat) (h0 : 0 < R) (hh : h < R) :
    ∀ i, i < R → wakeupVisited R h h i := by
  intro i hi
  unfold wakeupVisited
  rw [ringSeq_mem_iff, wakeupSpan_full R h h0 hh]
  refine ⟨(i + R - h) % R, Nat.mod_lt _ h0, ?_⟩
  have h1 : (h + (i + R - h) % R) % R = (h + (i + R - h)) % R := Nat.add_mod_mod h _ R
  have h2 : h + (i + R - h) = i + R := by omega
  rw [h1, h2, Nat.add_mod_right, Nat.mod_eq_of_lt hi]

theorem wakeupVisited_iff_ringMember (R h t i : Nat) (h0 : 0 < R)
    (hh : h < R) (ht : t < R) (hne : h ≠ t) (hi : i < R) :
    wakeupVisited R h t i ↔ ringMember h t i := by
  unfold wakeupVisited ringMember
  rw [ringSeq_mem_iff]
  by_cases hlt : h < t
  · have hs : wakeupSpan R h t = t - h := by
      unfold wakeupSpan
      rw [mod_two_R _ R h0 (by omega)]
      split <;> omega
    rw [hs, if_pos hlt]
    constructor
    · rintro ⟨d, hd, he⟩
      rw [Nat.mod_eq_of_lt (by omega)] at he
      omega
    · intro hm
      refine ⟨i - h, by omega, ?_⟩
      rw [Nat.mod_eq_of_lt (by omega)]
      omega
  · have htlt : t < h := by omega
    have hs : wakeupSpan R h t = t + R - h := by
      unfold wakeupSpan
      rw [mod_two_R _ R h0 (by omega)]
      split <;> omega
    rw [hs, if_neg hlt]
    constructor
    · rintro ⟨d, hd, he⟩
      rw [mod_two_R _ R h0 (by omega)] at he
      split at he <;> omega
    · intro hm
      rcases hm with hm | hm
      · refine ⟨i - h, by omega, ?_⟩
        rw [Nat.mod_eq_of_lt (by omega)]
        omega
      · refine ⟨i + R - h, by omega, ?_⟩
        rw [mod_two_R _ R h0 (by omega)]
        split <;> omega

theorem getD_set_cases (es : List ROBEntry) (j : Nat) (x : ROBEntry) (i : Nat) :
    (es.set j x).getD i default =
      if i = j ∧ j < es.length then x else es.getD i default := by
  by_cases h : i = j ∧ j < es.length
  · obtain ⟨h1, h2⟩ := h
    subst h1
    rw [if_pos ⟨rfl, h2⟩, List.getD_eq_getElem?_getD, List.getElem?_set_eq (by omega)]
    simp
  · rw [if_neg h]
    by_cases hij : i = j
    · subst hij
      have hlen : es.length ≤ i := by
        by_contra hc
        exact h ⟨rfl, by omega⟩
      rw [List.set_eq_of_length_le hlen]
    · rw [List.getD_eq_getElem?_getD, List.getElem?_set_ne (fun he => hij he.symm),
          List.getD_eq_getElem?_getD]

theorem wakeupEntry_mono (tag : Int) (e : ROBEntry) :
    (wakeupEntry tag e).valid = e.valid
    ∧ (wakeupEntry tag e).inst.src1_tag = e.inst.src1_tag
    ∧ (wakeupEntry tag e).inst.src2_tag = e.inst.src2_tag
    ∧ (e.inst.src1_ready = true → (wakeupEntry tag e).inst.src1_ready = true)
    ∧ (e.inst.src2_ready = true → (wakeupEntry tag e).inst.src2_ready = true) := by
  obtain ⟨f1, f2, fv, -, -, t1, t2⟩ := wakeupEntry_fields tag e
  refine ⟨fv, t1, t2, ?_, ?_⟩
  · intro h
    rw [f1]
    split
    · rfl
    · exact h
  · intro h
    rw [f2]
    split
    · rfl
    · exact h

theorem wakeupApply_mono (tag : Int) :
    ∀ (js : List Nat) (es : List ROBEntry) (i : Nat),
      ((wakeupApply tag js es).getD i default).valid = (es.getD i default).valid
      ∧ ((wakeupApply tag js es).getD i default).inst.src1_tag
          = (es.getD i default).inst.src1_tag
      ∧ ((wakeupApply tag js es).getD i default).inst.src2_tag
          = (es.getD i default).inst.src2_tag
      ∧ ((es.getD i default).inst.src1_ready = true →
          ((wakeupApply tag js es).getD i default).inst.src1_ready = true)
      ∧ ((es.getD i default).inst.src2_ready = true →
          ((wakeupApply tag js es).getD i default).inst.src2_ready = true) := by
  intro js
  induction js with
  | nil =>
    intro es i
    exact ⟨rfl, rfl, rfl, fun h => h, fun h => h⟩
  | cons j js ih =>
    intro es i
    have hstep : wakeupApply tag (j :: js) es =
        wakeupApply tag js (es.set j (wakeupEntry tag (es.getD j default))) := rfl
    rw [hstep]
    obtain ⟨iv, it1, it2, ir1, ir2⟩ :=
      ih (es.set j (wakeupEntry tag (es.getD j default))) i
    rw [getD_set_cases] at iv it1 it2 ir1 ir2
    by_cases hc : i = j ∧ j < es.length
    · rw [if_pos hc] at iv it1 it2 ir1 ir2
      obtain ⟨rfl, -⟩ := hc
      obtain ⟨wv, wt1, wt2, wr1, wr2⟩ := wakeupEntry_mono tag (es.getD i default)
      refine ⟨by rw [iv, wv], by rw [it1, wt1], by rw [it2, wt2],
        fun h => ir1 (wr1 h), fun h => ir2 (wr2 h)⟩
    · rw [if_neg hc] at iv it1 it2 ir1 ir2
      exact ⟨iv, it1, it2, ir1, ir2⟩

theorem rob_wakeup_shape (R : Nat) (rob : ROB) (tag : Int) :
    (rob_wakeup R rob tag).head_ptr = rob.head_ptr
    ∧ (rob_wakeup R rob tag).tail_ptr = rob.tail_ptr
    ∧ (rob_wakeup R rob tag).entries.length = rob.entries.length
    ∧ ∀ i, (robGet (rob_wakeup R rob tag) i).valid = (robGet rob i).valid
      ∧ (robGet (rob_wakeup R rob tag) i).inst.src1_tag = (robGet rob i).inst.src1_tag
      ∧ (robGet (rob_wakeup R rob tag) i).inst.src2_tag = (robGet rob i).inst.src2_tag
      ∧ ((robGet rob i).inst.src1_ready = true →
          (robGet (rob_wakeup R rob tag) i).inst.src1_ready = true)
      ∧ ((robGet rob i).inst.src2_ready = true →
          (robGet (rob_wakeup R rob tag) i).inst.src2_ready = true) := by
  have hent : (rob_wakeup R rob tag).entries =
      wakeupApply tag (loopSeq R rob.tail_ptr R rob.head_ptr) rob.entries := by
    show wakeupGo R tag rob.tail_ptr R rob.head_ptr rob.entries = _
    rw [wakeupGo_eq_apply]
  refine ⟨rfl, rfl, ?_, ?_⟩
  · rw [hent, wakeupApply_length]
  · intro i
    have hgi : robGet (rob_wakeup R rob tag) i
        = (wakeupApply tag (loopSeq R rob.tail_ptr R rob.head_ptr) rob.entries).getD i default := by
      show (rob_wakeup R rob tag).entries.getD i default = _
      rw [hent]
    rw [hgi]
    exact wakeupApply_mono tag _ rob.entries i

theorem rob_mark_ready_shape (rob : ROB) (inst : InstInfo) :
    (rob_mark_ready rob inst).head_ptr = rob.head_ptr
    ∧ (rob_mark_ready rob inst).tail_ptr = rob.tail_ptr
    ∧ (rob_mark_ready rob inst).entries.length = rob.entries.length
    ∧ ∀ i, (robGet (rob_mark_ready rob inst) i).valid = (robGet rob i).valid
      ∧ (robGet (rob_mark_ready rob inst) i).inst = (robGet rob i).inst := by
  refine ⟨rfl, rfl, List.length_set _ _ _, ?_⟩
  intro i
  have hgi : robGet (rob_mark_ready rob inst) i
      = if i = inst.dr_tag.toNat ∧ inst.dr_tag.toNat < rob.entries.length
        then { robGet rob inst.dr_tag.toNat with ready := true }
        else robGet rob i := by
    show (rob.entries.set _ _).getD i default = _
    rw [getD_set_cases]
    rfl
  rw [hgi]
  split
  · rename_i hc
    obtain ⟨rfl, -⟩ := hc
    exact ⟨rfl, rfl⟩
  · exact ⟨rfl, rfl⟩

theorem rob_wakeup_mono_srcWoken (R : Nat) (rob : ROB) (tag t : Int) :
    srcWoken rob t → srcWoken (rob_wakeup R rob tag) t := by
  intro hsw i hlen hvalid
  obtain ⟨-, -, hl, hf⟩ := rob_wakeup_shape R rob tag
  obtain ⟨fv, ft1, ft2, fr1, fr2⟩ := hf i
  rw [hl] at hlen
  obtain ⟨h1, h2⟩ := hsw i hlen (by rw [← fv]; exact hvalid)
  rw [ft1, ft2]
  exact ⟨fun ht => fr1 (h1 ht), fun ht => fr2 (h2 ht)⟩

theorem rob_mark_ready_mono_srcWoken (rob : ROB) (inst : InstInfo) (t : Int) :
    srcWoken rob t → srcWoken (rob_mark_ready rob inst) t := by
  intro hsw i hlen hvalid
  obtain ⟨-, -, hl, hf⟩ := rob_mark_ready_shape rob inst
  obtain ⟨fv, fi⟩ := hf i
  rw [hl] at hlen
  rw [fi]
  exact hsw i hlen (by rw [← fv]; exact hvalid)

theorem rob_wakeup_establishes (R : Nat) (rob : ROB) (tag : Int)
    (h0 : 0 < R) (hlen : rob.entries.length = R)
    (hh : rob.head_ptr < R) (ht : rob.tail_ptr < R)
    (hvalid : ∀ i, i < R → (robGet rob i).valid = true →
        wakeupVisited R rob.head_ptr rob.tail_ptr i) :
    srcWoken (rob_wakeup R rob tag) tag := by
  obtain ⟨-, -, hall⟩ := rob_wakeup_getD R rob tag h0 hlen hh ht
  intro i hilen hivalid
  have hilen' : i < R := by
    obtain ⟨-, -, hl, -⟩ := rob_wakeup_shape R rob tag
    omega
  have hvis : wakeupVisited R rob.head_ptr rob.tail_ptr i := by
    refine hvalid i hilen' ?_
    obtain ⟨-, -, -, hf⟩ := rob_wakeup_shape R rob tag
    rw [← (hf i).1]
    exact hivalid
  have hei := hall i
  rw [if_pos hvis] at hei
  obtain ⟨f1, f2, fv, -, -, t1, t2⟩ := wakeupEntry_fields tag (robGet rob i)
  rw [hei]
  constructor
  · intro htag
    rw [t1] at htag
    rw [f1, if_pos ⟨by rw [← fv, ← hei]; exact hivalid, htag⟩]
  · intro htag
    rw [t2] at htag
    rw [f2, if_pos ⟨by rw [← fv, ← hei]; exact hivalid, htag⟩]

theorem wbGo_preserves_srcWoken (cfg : Config) (cyc : Nat) :
    ∀ (exs : List PipelineLatch) (rob : ROB) (log : List (Nat × Nat)) (t : Int),
      srcWoken rob t → srcWoken (wbGo cfg cyc rob log exs).1 t := by
  intro exs
  induction exs with
  | nil =>
    intro rob log t h
    exact h
  | cons l rest ih =>
    intro rob log t h
    unfold wbGo
    split
    · exact ih _ _ t
        (rob_mark_ready_mono_srcWoken _ _ t
          (rob_wakeup_mono_srcWoken cfg.NUM_ROB_ENTRIES rob l.inst.dr_tag t h))
    · exact ih _ _ t h

theorem wbGo_preserves_shape (cfg : Config) (cyc : Nat) :
    ∀ (exs : List PipelineLatch) (rob : ROB) (log : List (Nat × Nat)),
      (wbGo cfg cyc rob log exs).1.head_ptr = rob.head_ptr
      ∧ (wbGo cfg cyc rob log exs).1.tail_ptr = rob.tail_ptr
      ∧ (wbGo cfg cyc rob log exs).1.entries.length = rob.entries.length
      ∧ ∀ i, (robGet (wbGo cfg cyc rob log exs).1 i).valid = (robGet rob i).valid := by
  intro exs
  induction exs with
  | nil =>
    intro rob log
    exact ⟨rfl, rfl, rfl, fun i => rfl⟩
  | cons l rest ih =>
    intro rob log
    unfold wbGo
    split
    · set rob2 := rob_mark_ready
        (rob_wakeup cfg.NUM_ROB_ENTRIES rob l.inst.dr_tag) l.inst with hrob2
      obtain ⟨ph, pt, pl, pv⟩ := ih rob2 (log ++ [(cyc, l.inst.inst_num)])
      obtain ⟨mh, mt, ml, mf⟩ := rob_mark_ready_shape
        (rob_wakeup cfg.NUM_ROB_ENTRIES rob l.inst.dr_tag) l.inst
      obtain ⟨wh, wt, wl, wf⟩ := rob_wakeup_shape cfg.NUM_ROB_ENTRIES rob l.inst.dr_tag
      refine ⟨?_, ?_, ?_, ?_⟩
      · rw [ph, mh, wh]
      · rw [pt, mt, wt]
      · rw [pl, ml, wl]
      · intro i
        rw [pv i, (mf i).1, (wf i).1]
    · exact ih rob log

theorem wbGo_totality (cfg : Config) (cyc : Nat) (h0 : 0 < cfg.NUM_ROB_ENTRIES) :
    ∀ (exs : List PipelineLatch) (rob : ROB) (log : List (Nat × Nat)),
      rob.entries.length = cfg.NUM_ROB_ENTRIES →
      rob.head_ptr < cfg.NUM_ROB_ENTRIES →
      rob.tail_ptr < cfg.NUM_ROB_ENTRIES →
      (∀ i, i < cfg.NUM_ROB_ENTRIES → (robGet rob i).valid = true →
        wakeupVisited cfg.NUM_ROB_ENTRIES rob.head_ptr rob.tail_ptr i) →
      ∀ l ∈ exs, l.stall = false → l.valid = true →
        srcWoken (wbGo cfg cyc rob log exs).1 l.inst.dr_tag := by
  intro exs
  induction exs with
  | nil =>
    intro rob log _ _ _ _ l hl
    exact absurd hl (List.not_mem_nil l)
  | cons l0 rest ih =>
    intro rob log hlen hh ht hvalid l hl hstall hvalidl
    unfold wbGo
    split
    · rename_i hproc
      set rob1 := rob_wakeup cfg.NUM_ROB_ENTRIES rob l0.inst.dr_tag with hrob1
      set rob2 := rob_mark_ready rob1 l0.inst with hrob2
      obtain ⟨mh, mt, ml, mf⟩ := rob_mark_ready_shape rob1 l0.inst
      obtain ⟨wh, wt, wl, wf⟩ := rob_wakeup_shape cfg.NUM_ROB_ENTRIES rob l0.inst.dr_tag
      have hlen2 : rob2.entries.length = cfg.NUM_ROB_ENTRIES := by rw [ml, wl, hlen]
      have hh2 : rob2.head_ptr < cfg.NUM_ROB_ENTRIES := by rw [mh, wh]; exact hh
      have ht2 : rob2.tail_ptr < cfg.NUM_ROB_ENTRIES := by rw [mt, wt]; exact ht
      have hvalid2 : ∀ i, i < cfg.NUM_ROB_ENTRIES → (robGet rob2 i).valid = true →
          wakeupVisited cfg.NUM_ROB_ENTRIES rob2.head_ptr rob2.tail_ptr i := by
        intro i hi hv
        rw [mh, wh, mt, wt]
        refine hvalid i hi ?_
        rw [← (wf i).1, ← (mf i).1]
        exact hv
      rcases List.mem_cons.mp hl with rfl | hmem
      · refine wbGo_preserves_srcWoken cfg cyc rest rob2 _ l.inst.dr_tag ?_
        refine rob_mark_ready_mono_srcWoken rob1 l.inst l.inst.dr_tag ?_
        exact rob_wakeup_establishes cfg.NUM_ROB_ENTRIES rob l.inst.dr_tag
          h0 hlen hh ht hvalid
      · exact ih rob2 _ hlen2 hh2 ht2 hvalid2 l hmem hstall hvalidl
    · rename_i hproc
      rcases List.mem_cons.mp hl with rfl | hmem
      · exact absurd ⟨hstall, hvalidl⟩ hproc
      · exact ih rob log hlen hh ht hvalid l hmem hstall hvalidl

/-- Claim C6: `rob_wakeup(tag)` updates exactly the slots visited by the
do/while traversal (setting `src1_ready`/`src2_ready` on valid slots
whose matching source tag equals `tag` and touching nothing else); the
traversal runs from `head` inclusive to `tail` exclusive modulo the
capacity, visits each slot at most once, and covers every slot when
`head == tail` (in particular with the buffer full); consequently, after
the writeback stage processes a producer latch with destination tag t,
no valid ROB entry with a source tag equal to t has that source's ready
flag false. -/
theorem rob_wakeup_totality
    (R : Nat) (rob : ROB) (tag : Int) (cfg : Config) (p : Pipeline)
    (h0 : 0 < R) (hlen : rob.entries.length = R)
    (hh : rob.head_ptr < R) (ht : rob.tail_ptr < R)
    (hc0 : 0 < cfg.NUM_ROB_ENTRIES)
    (hplen : p.rob.entries.length = cfg.NUM_ROB_ENTRIES)
    (hph : p.rob.head_ptr < cfg.NUM_ROB_ENTRIES)
    (hpt : p.rob.tail_ptr < cfg.NUM_ROB_ENTRIES)
    (hpvalid : ∀ i, i < cfg.NUM_ROB_ENTRIES → (robGet p.rob i).valid = true →
        wakeupVisited cfg.NUM_ROB_ENTRIES p.rob.head_ptr p.rob.tail_ptr i) :
    (∀ i, robGet (rob_wakeup R rob tag) i =
        if wakeupVisited R rob.head_ptr rob.tail_ptr i
        then wakeupEntry tag (robGet rob i) else robGet rob i)
    ∧ (rob_wakeup R rob tag).head_ptr = rob.head_ptr
    ∧ (rob_wakeup R rob tag).tail_ptr = rob.tail_ptr
    ∧ (∀ e : ROBEntry,
        (wakeupEntry tag e).inst.src1_ready
            = (if e.valid = true ∧ e.inst.src1_tag = tag then true else e.inst.src1_ready)
        ∧ (wakeupEntry tag e).inst.src2_ready
            = (if e.valid = true ∧ e.inst.src2_tag = tag then true else e.inst.src2_ready)
        ∧ (wakeupEntry tag e).valid = e.valid
        ∧ (wakeupEntry tag e).exec = e.exec
        ∧ (wakeupEntry tag e).ready = e.ready
        ∧ (wakeupEntry tag e).inst.src1_tag = e.inst.src1_tag
        ∧ (wakeupEntry tag e).inst.src2_tag = e.inst.src2_tag)
    ∧ (ringSeq R rob.head_ptr (wakeupSpan R rob.head_ptr rob.tail_ptr)).Nodup
    ∧ (rob.head_ptr = rob.tail_ptr →
        wakeupSpan R rob.head_ptr rob.tail_ptr = R
        ∧ ∀ i, i < R → wakeupVisited R rob.head_ptr rob.tail_ptr i)
    ∧ (rob.head_ptr ≠ rob.tail_ptr → ∀ i, i < R →
        (wakeupVisited R rob.head_ptr rob.tail_ptr i
          ↔ ringMember rob.head_ptr rob.tail_ptr i))
    ∧ (∀ l ∈ p.EX_latch, l.stall = false → l.valid = true →
        srcWoken (pipe_cycle_writeback cfg p).rob l.inst.dr_tag) := by
  obtain ⟨gh, gt, gall⟩ := rob_wakeup_getD R rob tag h0 hlen hh ht
  refine ⟨gall, gh, gt, wakeupEntry_fields tag,
    ringSeq_nodup R rob.head_ptr _ h0 (wakeupSpan_le R rob.head_ptr rob.tail_ptr h0),
    ?_, ?_, ?_⟩
  · intro heq
    constructor
    · rw [heq]
      exact wakeupSpan_full R rob.tail_ptr h0 (heq ▸ hh)
    · intro i hi
      rw [heq]
      exact wakeupVisited_full R rob.tail_ptr h0 (heq ▸ hh) i hi
  · intro hne i hi
    exact wakeupVisited_iff_ringMember R rob.head_ptr rob.tail_ptr i h0 hh ht hne hi
  · intro l hl hstall hvalidl
    have hrw : (pipe_cycle_writeback cfg p).rob =
        (wbGo cfg p.stat_num_cycle p.rob p.wb_log p.EX_latch).1 := rfl
    rw [hrw]
    exact wbGo_totality cfg p.stat_num_cycle hc0 p.EX_latch p.rob p.wb_log
      hplen hph hpt hpvalid l hl hstall hvalidl

/-- Witness for C6: writing the producer (tag 0) back through the full
two-entry ROB `robWake` leaves no valid entry with source tag 0
un-woken; in particular the consumer in slot 1 has `src1_ready`. -/
theorem rob_wakeup_totality_witness :
    srcWoken (pipe_cycle_writeback cfgR2 pWB).rob 0 ∧
      (robGet (pipe_cycle_writeback cfgR2 pWB).rob 1).inst.src1_ready = true := by
  have h := rob_wakeup_totality 2 robWake 0 cfgR2 pWB
    (by decide) (by decide) (by decide) (by decide)
    (by decide) (by decide) (by decide) (by decide) (by decide)
  have hw := h.2.2.2.2.2.2.2 exL (by decide) rfl rfl
  exact ⟨hw, by decide⟩

/-! ## Claim C1: ring-buffer lemmas -/

theorem ring_mod_inj (R h m1 m2 : Nat) (hm1 : m1 < R) (hm2 : m2 < R)
    (he : (h + m1) % R = (h + m2) % R) : m1 = m2 := by
  have h2 : m1 % R = m2 % R := Nat.ModEq.add_left_cancel' h he
  rw [Nat.mod_eq_of_lt hm1, Nat.mod_eq_of_lt hm2] at h2
  exact h2

theorem robRingEq_refl (rob : ROB) : RobRingEq rob rob :=
  ⟨rfl, rfl, rfl, fun _ => ⟨rfl, rfl⟩⟩

theorem robRingEq_trans {a b c : ROB} (h1 : RobRingEq a b) (h2 : RobRingEq b c) :
    RobRingEq a c := by
  obtain ⟨p1, p2, p3, p4⟩ := h1
  obtain ⟨q1, q2, q3, q4⟩ := h2
  refine ⟨q1.trans p1, q2.trans p2, q3.trans p3, ?_⟩
  intro i
  exact ⟨(q4 i).1.trans (p4 i).1, (q4 i).2.trans (p4 i).2⟩

theorem robSet_ringEq (rob : ROB) (i : Nat) (e : ROBEntry)
    (hv : e.valid = (robGet rob i).valid)
    (hn : e.inst.inst_num = (robGet rob i).inst.inst_num) :
    RobRingEq rob (robSet rob i e) := by
  refine ⟨rfl, rfl, List.length_set _ _ _, ?_⟩
  intro j
  show ((rob.entries.set i e).getD j default).valid = _ ∧
    ((rob.entries.set i e).getD j default).inst.inst_num = _
  rw [getD_set_cases]
  split
  · rename_i hc
    obtain ⟨rfl, -⟩ := hc
    exact ⟨hv, hn⟩
  · exact ⟨rfl, rfl⟩

theorem ringInv_of_ringEq {R c k : Nat} {rob rob' : ROB}
    (he : RobRingEq rob rob') (hinv : RingInv R c k rob) : RingInv R c k rob' := by
  obtain ⟨eh, et, el, ef⟩ := he
  refine ⟨el.trans hinv.hlen, eh ▸ hinv.hhead, et ▸ hinv.htail, hinv.hk,
    by rw [et, eh, hinv.htailk], ?_, ?_⟩
  · intro m hm
    obtain ⟨v, n⟩ := hinv.hring m hm
    rw [eh, (ef _).1, (ef _).2]
    exact ⟨v, n⟩
  · intro i hi hv
    rw [eh]
    refine hinv.hvalidonly i hi ?_
    rw [← (ef i).1]
    exact hv

theorem ring_space_iff {R c k : Nat} {rob : ROB}
    (hinv : RingInv R c k rob) (h0 : 0 < R) :
    rob_check_space rob = true ↔ k < R := by
  constructor
  · intro hs
    by_contra hc
    have hkR : k = R := by
      have := hinv.hk
      omega
    have htl : rob.tail_ptr = rob.head_ptr := by
      rw [hinv.htailk, hkR, Nat.add_mod_right, Nat.mod_eq_of_lt hinv.hhead]
    have hv0 := (hinv.hring 0 (by omega)).1
    rw [Nat.add_zero, Nat.mod_eq_of_lt hinv.hhead] at hv0
    unfold rob_check_space at hs
    rw [if_pos htl] at hs
    rw [hv0] at hs
    simp at hs
  · intro hklt
    unfold rob_check_space
    split
    · rename_i htl
      have hk0 : k = 0 := by
        have hmod : k % R = 0 := by
          have : (rob.head_ptr + k) % R = rob.head_ptr := by rw [← hinv.htailk, htl]
          have h1 : (rob.head_ptr + k) % R = (rob.head_ptr + 0) % R := by
            rw [this, Nat.add_zero, Nat.mod_eq_of_lt hinv.hhead]
          have h2 : k % R = 0 % R := Nat.ModEq.add_left_cancel' rob.head_ptr h1
          simpa using h2
        rw [Nat.mod_eq_of_lt hklt] at hmod
        exact hmod
      have hnv : ¬ (robGet rob rob.head_ptr).valid = true := by
        intro hv
        obtain ⟨m, hm, -⟩ := hinv.hvalidonly rob.head_ptr hinv.hhead hv
        omega
      rw [if_pos (by simpa using hnv)]
    · rfl

theorem ring_insert {R c k : Nat} {rob : ROB} (inst : InstInfo)
    (hinv : RingInv R c k rob) (h0 : 0 < R) (hklt : k < R)
    (hnum : inst.inst_num = c + 1 + k) :
    (rob_insert R rob inst).2 = (rob.tail_ptr : Int)
    ∧ (rob_insert R rob inst).1.head_ptr = rob.head_ptr
    ∧ RingInv R c (k + 1) (rob_insert R rob inst).1 := by
  have hs : rob_check_space rob = true := (ring_space_iff hinv h0).mpr hklt
  unfold rob_insert
  rw [if_pos hs]
  refine ⟨rfl, rfl, ?_⟩
  have htlen : rob.tail_ptr < rob.entries.length := by
    rw [hinv.hlen]
    exact hinv.htail
  refine ⟨?_, ?_, ?_, by omega, ?_, ?_, ?_⟩
  · show (rob.entries.set _ _).length = R
    rw [List.length_set]
    exact hinv.hlen
  · exact hinv.hhead
  · show (rob.tail_ptr + 1) % R < R
    exact Nat.mod_lt _ h0
  · show (rob.tail_ptr + 1) % R = (rob.head_ptr + (k + 1)) % R
    rw [hinv.htailk, Nat.mod_add_mod]
    congr 1 <;> omega
  · intro m hm
    show ((rob.entries.set rob.tail_ptr _).getD _ default).valid = true ∧
      ((rob.entries.set rob.tail_ptr _).getD _ default).inst.inst_num = c + 1 + m
    rw [getD_set_cases]
    by_cases hmk : m = k
    · subst hmk
      rw [if_pos ⟨hinv.htailk.symm, htlen⟩]
      exact ⟨rfl, hnum⟩
    · have hne : (rob.head_ptr + m) % R ≠ rob.tail_ptr := by
        rw [hinv.htailk]
        intro hc
        exact hmk (ring_mod_inj R rob.head_ptr m k (by omega) hklt hc)
      rw [if_neg (by
        intro hc
        exact hne hc.1)]
      exact hinv.hring m (by omega)
  · intro i hi hv
    show ∃ m, m < k + 1 ∧ i = (rob.head_ptr + m) % R
    by_cases hit : i = rob.tail_ptr
    · exact ⟨k, by omega, by rw [hit, hinv.htailk]⟩
    · have : (robGet rob i).valid = true := by
        have hgi : robGet { robSet rob rob.tail_ptr
            { valid := true, exec := false, ready := false, inst := inst } with
            tail_ptr := (rob.tail_ptr + 1) % R } i = robGet rob i := by
          show (rob.entries.set _ _).getD i default = rob.entries.getD i default
          rw [getD_set_cases, if_neg (by
            intro hc
            exact hit hc.1)]
        rw [← hgi]
        exact hv
      obtain ⟨m, hm, he⟩ := hinv.hvalidonly i hi this
      exact ⟨m, by omega, he⟩

theorem ring_remove {R c k : Nat} {rob : ROB}
    (hinv : RingInv R c k rob) (h0 : 0 < R) (hhead : rob_check_head rob = true) :
    1 ≤ k
    ∧ (rob_remove_head R rob).2 = some (robGet rob rob.head_ptr).inst
    ∧ (robGet rob rob.head_ptr).inst.inst_num = c + 1
    ∧ RingInv R (c + 1) (k - 1) (rob_remove_head R rob).1 := by
  have hvr := (rob_check_head_iff rob).mp hhead
  have hk1 : 1 ≤ k := by
    obtain ⟨m, hm, -⟩ := hinv.hvalidonly rob.head_ptr hinv.hhead hvr.1
    omega
  have hnum : (robGet rob rob.head_ptr).inst.inst_num = c + 1 := by
    have := (hinv.hring 0 (by omega)).2
    rw [Nat.add_zero, Nat.mod_eq_of_lt hinv.hhead] at this
    omega
  have hhlen : rob.head_ptr < rob.entries.length := by
    rw [hinv.hlen]
    exact hinv.hhead
  have hkub := hinv.hk
  have hrem : rob_remove_head R rob =
      ({ robSet rob rob.head_ptr
           { robGet rob rob.head_ptr with valid := false, exec := false, ready := false } with
         head_ptr := (rob.head_ptr + 1) % R },
       some (robGet rob rob.head_ptr).inst) := by
    unfold rob_remove_head
    rw [if_pos hvr]
  rw [hrem]
  refine ⟨hk1, rfl, hnum, ?_, ?_, ?_, by omega, ?_, ?_, ?_⟩
  · show (rob.entries.set _ _).length = R
    rw [List.length_set]
    exact hinv.hlen
  · show (rob.head_ptr + 1) % R < R
    exact Nat.mod_lt _ h0
  · exact hinv.htail
  · show rob.tail_ptr = ((rob.head_ptr + 1) % R + (k - 1)) % R
    rw [hinv.htailk, Nat.mod_add_mod]
    congr 1 <;> omega
  · intro m hm
    show ((rob.entries.set rob.head_ptr _).getD (((rob.head_ptr + 1) % R + m) % R) default).valid = true ∧
      ((rob.entries.set rob.head_ptr _).getD (((rob.head_ptr + 1) % R + m) % R) default).inst.inst_num
        = c + 1 + 1 + m
    have hpos : ((rob.head_ptr + 1) % R + m) % R = (rob.head_ptr + (1 + m)) % R := by
      rw [Nat.mod_add_mod]
      congr 1 <;> omega
    rw [hpos, getD_set_cases, if_neg (by
      intro hc
      have h1m : (rob.head_ptr + (1 + m)) % R = (rob.head_ptr + 0) % R := by
        rw [hc.1, Nat.add_zero, Nat.mod_eq_of_lt hinv.hhead]
      have := ring_mod_inj R rob.head_ptr (1 + m) 0 (by omega) (by omega) h1m
      omega)]
    obtain ⟨hval, hnm⟩ := hinv.hring (1 + m) (by omega)
    refine ⟨hval, ?_⟩
    show (robGet rob ((rob.head_ptr + (1 + m)) % R)).inst.inst_num = c + 1 + 1 + m
    rw [hnm]
    omega
  · intro i hi hv
    have hgi : robGet { robSet rob rob.head_ptr
          { robGet rob rob.head_ptr with valid := false, exec := false, ready := false } with
          head_ptr := (rob.head_ptr + 1) % R } i
        = (if i = rob.head_ptr ∧ rob.head_ptr < rob.entries.length
           then { robGet rob rob.head_ptr with valid := false, exec := false, ready := false }
           else robGet rob i) := by
      show (rob.entries.set _ _).getD i default = _
      rw [getD_set_cases]
      rfl
    rw [hgi] at hv
    by_cases hih : i = rob.head_ptr
    · rw [if_pos ⟨hih, hhlen⟩] at hv
      simp at hv
    · rw [if_neg (by
        intro hc
        exact hih hc.1)] at hv
      obtain ⟨m, hm, he⟩ := hinv.hvalidonly i hi hv
      have hm0 : m ≠ 0 := by
        intro hc
        subst hc
        rw [Nat.add_zero, Nat.mod_eq_of_lt hinv.hhead] at he
        exact hih he
      refine ⟨m - 1, by omega, ?_⟩
      show i = ((rob.head_ptr + 1) % R + (m - 1)) % R
      rw [Nat.mod_add_mod, he]
      congr 1 <;> omega

theorem wakeupEntry_num (tag : Int) (e : ROBEntry) :
    (wakeupEntry tag e).inst.inst_num = e.inst.inst_num := by
  unfold wakeupEntry
  dsimp only
  split <;> split <;> rfl

theorem wakeupApply_num (tag : Int) :
    ∀ (js : List Nat) (es : List ROBEntry) (i : Nat),
      ((wakeupApply tag js es).getD i default).inst.inst_num
        = (es.getD i default).inst.inst_num := by
  intro js
  induction js with
  | nil =>
    intro es i
    rfl
  | cons j js ih =>
    intro es i
    have hstep : wakeupApply tag (j :: js) es =
        wakeupApply tag js (es.set j (wakeupEntry tag (es.getD j default))) := rfl
    rw [hstep, ih]
    rw [getD_set_cases]
    split
    · rename_i hc
      obtain ⟨rfl, -⟩ := hc
      exact wakeupEntry_num tag _
    · rfl

theorem rob_wakeup_ringEq (R : Nat) (rob : ROB) (tag : Int) :
    RobRingEq rob (rob_wakeup R rob tag) := by
  have hent : (rob_wakeup R rob tag).entries =
      wakeupApply tag (loopSeq R rob.tail_ptr R rob.head_ptr) rob.entries := by
    show wakeupGo R tag rob.tail_ptr R rob.head_ptr rob.entries = _
    rw [wakeupGo_eq_apply]
  refine ⟨rfl, rfl, ?_, ?_⟩
  · rw [hent, wakeupApply_length]
  · intro i
    have hgi : robGet (rob_wakeup R rob tag) i
        = (wakeupApply tag (loopSeq R rob.tail_ptr R rob.head_ptr) rob.entries).getD i default := by
      show (rob_wakeup R rob tag).entries.getD i default = _
      rw [hent]
    rw [hgi]
    exact ⟨(wakeupApply_mono tag _ rob.entries i).1, wakeupApply_num tag _ rob.entries i⟩

theorem rob_mark_ready_ringEq (rob : ROB) (inst : InstInfo) :
    RobRingEq rob (rob_mark_ready rob inst) := by
  obtain ⟨h1, h2, h3, h4⟩ := rob_mark_ready_shape rob inst
  exact ⟨h1, h2, h3, fun i => ⟨(h4 i).1, by rw [(h4 i).2]⟩⟩

theorem rob_mark_exec_shape (rob : ROB) (inst : InstInfo) :
    (rob_mark_exec rob inst).head_ptr = rob.head_ptr
    ∧ (rob_mark_exec rob inst).tail_ptr = rob.tail_ptr
    ∧ (rob_mark_exec rob inst).entries.length = rob.entries.length
    ∧ ∀ i, (robGet (rob_mark_exec rob inst) i).valid = (robGet rob i).valid
      ∧ (robGet (rob_mark_exec rob inst) i).inst = (robGet rob i).inst := by
  refine ⟨rfl, rfl, List.length_set _ _ _, ?_⟩
  intro i
  have hgi : robGet (rob_mark_exec rob inst) i
      = if i = inst.dr_tag.toNat ∧ inst.dr_tag.toNat < rob.entries.length
        then { robGet rob inst.dr_tag.toNat with exec := true }
        else robGet rob i := by
    show (rob.entries.set _ _).getD i default = _
    rw [getD_set_cases]
    rfl
  rw [hgi]
  split
  · rename_i hc
    obtain ⟨rfl, -⟩ := hc
    exact ⟨rfl, rfl⟩
  · exact ⟨rfl, rfl⟩

theorem rob_mark_exec_ringEq (rob : ROB) (inst : InstInfo) :
    RobRingEq rob (rob_mark_exec rob inst) := by
  obtain ⟨h1, h2, h3, h4⟩ := rob_mark_exec_shape rob inst
  exact ⟨h1, h2, h3, fun i => ⟨(h4 i).1, by rw [(h4 i).2]⟩⟩

theorem wbGo_ringEq (cfg : Config) (cyc : Nat) :
    ∀ (exs : List PipelineLatch) (rob : ROB) (log : List (Nat × Nat)),
      RobRingEq rob (wbGo cfg cyc rob log exs).1 := by
  intro exs
  induction exs with
  | nil =>
    intro rob log
    exact robRingEq_refl rob
  | cons l rest ih =>
    intro rob log
    unfold wbGo
    split
    · exact robRingEq_trans
        (robRingEq_trans (rob_wakeup_ringEq cfg.NUM_ROB_ENTRIES rob l.inst.dr_tag)
          (rob_mark_ready_ringEq _ l.inst))
        (ih _ _)
    · exact ih rob log

theorem schedScanInOrder_ringEq (cfg : Config) (rob : ROB) (lane : PipelineLatch) :
    ∀ (fuel j : Nat), RobRingEq rob (schedScanInOrder cfg rob lane fuel j).1 := by
  intro fuel
  induction fuel with
  | zero =>
    intro j
    exact robRingEq_refl rob
  | succ fuel ih =>
    intro j
    unfold schedScanInOrder
    dsimp only
    split
    · split
      · exact robRingEq_refl rob
      · exact rob_mark_exec_ringEq rob _
    · split
      · exact robRingEq_refl rob
      · exact ih _

theorem schedScanOOO_ringEq (cfg : Config) (rob : ROB) :
    ∀ (fuel : Nat) (lane : PipelineLatch) (j : Nat),
      RobRingEq rob (schedScanOOO cfg rob lane fuel j).1 := by
  intro fuel
  induction fuel with
  | zero =>
    intro lane j
    exact robRingEq_refl rob
  | succ fuel ih =>
    intro lane j
    unfold schedScanOOO
    dsimp only
    split
    · split
      · split
        · exact robRingEq_refl rob
        · exact ih _ _
      · exact rob_mark_exec_ringEq rob _
    · split
      · exact robRingEq_refl rob
      · exact ih _ _

theorem schedGo_ringEq (cfg : Config) (cyc : Nat) :
    ∀ (lanes : List PipelineLatch) (rob : ROB) (log : List (Nat × Nat)),
      RobRingEq rob (schedGo cfg cyc rob log lanes).1 := by
  intro lanes
  induction lanes with
  | nil =>
    intro rob log
    exact robRingEq_refl rob
  | cons lane rest ih =>
    intro rob log
    unfold schedGo
    cases cfg.SCHED_POLICY with
    | SCHED_IN_ORDER =>
      exact robRingEq_trans
        (schedScanInOrder_ringEq cfg rob lane cfg.NUM_ROB_ENTRIES rob.head_ptr) (ih _ _)
    | SCHED_OUT_OF_ORDER =>
      exact robRingEq_trans
        (schedScanOOO_ringEq cfg rob cfg.NUM_ROB_ENTRIES lane rob.head_ptr) (ih _ _)

theorem issueOne_ring (cfg : Config) (rob : ROB) (rat : RAT) (inst : InstInfo)
    {c k : Nat} (hinv : RingInv cfg.NUM_ROB_ENTRIES c k rob)
    (h0 : 0 < cfg.NUM_ROB_ENTRIES) (hklt : k < cfg.NUM_ROB_ENTRIES)
    (hnum : inst.inst_num = c + 1 + k) :
    (issueOne cfg rob rat inst).2.2.1 = true
    ∧ RingInv cfg.NUM_ROB_ENTRIES c (k + 1) (issueOne cfg rob rat inst).1 := by
  obtain ⟨hret, hhd, hins⟩ := ring_insert inst hinv h0 hklt hnum
  unfold issueOne
  dsimp only
  rw [hret]
  rw [if_pos (show (rob.tail_ptr : Int) ≠ -1 by omega)]
  constructor
  · split <;> rfl
  · split <;>
      exact ringInv_of_ringEq (robSet_ringEq _ _ _ rfl rfl)
        (ringInv_of_ringEq (robSet_ringEq _ _ _ rfl rfl)
          (ringInv_of_ringEq (robSet_ringEq _ _ _ rfl rfl) hins))

/-! ## Claim C1: bubble-sort correctness -/

theorem bubblePassFull_nil : bubblePassFull [] = [] := by
  unfold bubblePassFull
  rfl

theorem bubblePassFull_single (a : PipelineLatch) : bubblePassFull [a] = [a] := by
  unfold bubblePassFull
  rfl

theorem bubblePassN_length : ∀ (m : Nat) (l : List PipelineLatch),
    (bubblePassN m l).length = l.length := by
  intro m
  induction m with
  | zero => intro l; rfl
  | succ m ih =>
    intro l
    match l with
    | [] => rfl
    | [a] => rfl
    | a :: b :: rest =>
      unfold bubblePassN
      split
      · show (b :: bubblePassN m (a :: rest)).length = _
        simp [ih]
      · show (a :: bubblePassN m (b :: rest)).length = _
        simp [ih]

theorem bubblePassN_perm : ∀ (m : Nat) (l : List PipelineLatch),
    (bubblePassN m l).Perm l := by
  intro m
  induction m with
  | zero => intro l; exact List.Perm.refl l
  | succ m ih =>
    intro l
    match l with
    | [] => exact List.Perm.refl []
    | [a] => exact List.Perm.refl [a]
    | a :: b :: rest =>
      unfold bubblePassN
      split
      · exact ((ih (a :: rest)).cons b).trans (List.Perm.swap a b rest)
      · exact (ih (b :: rest)).cons a

theorem bubblePassN_full : ∀ (m : Nat) (l : List PipelineLatch),
    l.length ≤ m + 1 → bubblePassN m l = bubblePassFull l := by
  intro m
  induction m with
  | zero =>
    intro l hl
    match l with
    | [] => rw [bubblePassFull_nil]; rfl
    | [a] => rw [bubblePassFull_single]; rfl
  | succ m ih =>
    intro l hl
    match l with
    | [] => rw [bubblePassFull_nil]; rfl
    | [a] => rw [bubblePassFull_single]; rfl
    | a :: b :: rest =>
      show bubblePassN (m + 1) (a :: b :: rest) = bubblePassFull (a :: b :: rest)
      unfold bubblePassN bubblePassFull
      have hlen : ∀ x : PipelineLatch, (x :: rest).length ≤ m + 1 := by
        intro x
        simp at hl ⊢
        omega
      split
      · rw [ih (a :: rest) (hlen a)]
      · rw [ih (b :: rest) (hlen b)]

theorem bubblePassFull_perm : ∀ (l : List PipelineLatch), (bubblePassFull l).Perm l := by
  intro l
  induction l using bubblePassFull.induct with
  | case1 => rw [bubblePassFull_nil]
  | case2 a => rw [bubblePassFull_single]
  | case3 a b rest hswap ih =>
    unfold bubblePassFull
    rw [if_pos hswap]
    exact (ih.cons b).trans (List.Perm.swap a b rest)
  | case4 a b rest hswap ih =>
    unfold bubblePassFull
    rw [if_neg hswap]
    exact ih.cons a

theorem bubblePassFull_split : ∀ (l : List PipelineLatch), l ≠ [] →
    ∃ l' M, bubblePassFull l = l' ++ [M] ∧ ∀ x ∈ l, latchKey x ≤ latchKey M := by
  intro l
  induction l using bubblePassFull.induct with
  | case1 => intro h; exact absurd rfl h
  | case2 a =>
    intro _
    refine ⟨[], a, (bubblePassFull_single a).trans rfl, ?_⟩
    intro x hx
    rw [List.mem_singleton.mp hx]
  | case3 a b rest hswap ih =>
    intro _
    obtain ⟨l', M, heq, hbound⟩ := ih (by simp)
    refine ⟨b :: l', M, ?_, ?_⟩
    · unfold bubblePassFull
      rw [if_pos hswap, heq]
      rfl
    · intro x hx
      have ha : latchKey a ≤ latchKey M := hbound a (List.mem_cons_self a rest)
      rcases List.mem_cons.mp hx with hxa | hx2
      · rw [hxa]
        exact ha
      · rcases List.mem_cons.mp hx2 with hxb | hx3
        · rw [hxb]
          omega
        · exact hbound x (List.mem_cons_of_mem a hx3)
  | case4 a b rest hswap ih =>
    intro _
    obtain ⟨l', M, heq, hbound⟩ := ih (by simp)
    refine ⟨a :: l', M, ?_, ?_⟩
    · unfold bubblePassFull
      rw [if_neg hswap, heq]
      rfl
    · intro x hx
      have hb : latchKey b ≤ latchKey M := hbound b (List.mem_cons_self b rest)
      rcases List.mem_cons.mp hx with hxa | hx2
      · rw [hxa]
        omega
      · exact hbound x hx2

theorem bubblePassN_append : ∀ (m : Nat) (xs ys : List PipelineLatch),
    m + 1 ≤ xs.length → bubblePassN m (xs ++ ys) = bubblePassN m xs ++ ys := by
  intro m
  induction m with
  | zero => intro xs ys _; rfl
  | succ m ih =>
    intro xs ys hlen
    match xs with
    | [] => simp at hlen
    | [a] => simp at hlen
    | a :: b :: rest =>
      show bubblePassN (m + 1) (a :: b :: (rest ++ ys)) = _
      unfold bubblePassN
      split
      · rw [show a :: (rest ++ ys) = (a :: rest) ++ ys from rfl,
            ih (a :: rest) ys (by simp at hlen ⊢; omega)]
        rfl
      · rw [show b :: (rest ++ ys) = (b :: rest) ++ ys from rfl,
            ih (b :: rest) ys (by simp at hlen ⊢; omega)]
        rfl

theorem bubbleIter_append : ∀ (k : Nat) (xs ys : List PipelineLatch),
    k + 1 ≤ xs.length → bubbleIter k (xs ++ ys) = bubbleIter k xs ++ ys := by
  intro k
  induction k with
  | zero => intro xs ys _; rfl
  | succ k ih =>
    intro xs ys hlen
    show bubbleIter k (bubblePassN (k + 1) (xs ++ ys)) = bubbleIter k (bubblePassN (k + 1) xs) ++ ys
    rw [bubblePassN_append (k + 1) xs ys (by omega),
        ih (bubblePassN (k + 1) xs) ys (by rw [bubblePassN_length]; omega)]

theorem bubbleIter_perm : ∀ (k : Nat) (l : List PipelineLatch), (bubbleIter k l).Perm l := by
  intro k
  induction k with
  | zero => intro l; exact List.Perm.refl l
  | succ k ih =>
    intro l
    exact (ih (bubblePassN (k + 1) l)).trans (bubblePassN_perm (k + 1) l)

theorem bubbleIter_sorted : ∀ (k : Nat) (l : List PipelineLatch), l.length = k + 1 →
    (bubbleIter k l).Sorted (fun x y => latchKey x ≤ latchKey y) := by
  intro k
  induction k with
  | zero =>
    intro l hl
    match l with
    | [a] => exact List.sorted_singleton a
  | succ k ih =>
    intro l hl
    show ((bubbleIter k (bubblePassN (k + 1) l)).Sorted fun x y => latchKey x ≤ latchKey y)
    rw [bubblePassN_full (k + 1) l (by omega)]
    obtain ⟨l', M, heq, hbound⟩ := bubblePassFull_split l (by
      intro hc
      rw [hc] at hl
      simp at hl)
    rw [heq]
    have hlenfull : (bubblePassFull l).length = l.length :=
      (bubblePassFull_perm l).length_eq
    have hl' : l'.length = k + 1 := by
      rw [heq] at hlenfull
      simp at hlenfull
      omega
    rw [bubbleIter_append k l' [M] (by omega)]
    apply List.pairwise_append.mpr
    refine ⟨ih l' hl', List.sorted_singleton M, ?_⟩
    intro x hx y hy
    rw [List.mem_singleton.mp hy]
    have hxl : x ∈ l' := (bubbleIter_perm k l').mem_iff.mp hx
    have hxfull : x ∈ bubblePassFull l := by
      rw [heq]
      exact List.mem_append_left [M] hxl
    exact hbound x ((bubblePassFull_perm l).mem_iff.mp hxfull)

theorem id_sort_perm (w : Nat) (l : List PipelineLatch) : (id_sort w l).Perm l :=
  bubbleIter_perm (w - 1) l

theorem id_sort_sorted (w : Nat) (l : List PipelineLatch) (hl : l.length = w) :
    (id_sort w l).Sorted (fun x y => latchKey x ≤ latchKey y) := by
  match w with
  | 0 =>
    have : l = [] := List.length_eq_zero.mp hl
    rw [this]
    exact List.sorted_nil
  | w + 1 =>
    exact bubbleIter_sorted w l hl

/-! ## Claim C1: latch-file instruction-number bookkeeping -/

theorem validNums_nil : validNums [] = [] := rfl

theorem validNums_cons (l : PipelineLatch) (rest : List PipelineLatch) :
    validNums (l :: rest) =
      if l.valid = true then l.inst.inst_num :: validNums rest else validNums rest := by
  unfold validNums
  by_cases hv : l.valid = true
  · rw [if_pos hv]
    simp [List.filter_cons, hv]
  · rw [if_neg hv]
    simp [List.filter_cons, hv]

theorem validNums_perm {l1 l2 : List PipelineLatch} (h : l1.Perm l2) :
    (validNums l1).Perm (validNums l2) :=
  (h.filter _).map _

theorem validNums_sorted {l : List PipelineLatch}
    (h : l.Sorted fun x y => latchKey x ≤ latchKey y) :
    (validNums l).Sorted (· ≤ ·) := by
  unfold validNums
  refine List.Pairwise.map _ ?_ (List.Pairwise.sublist (List.filter_sublist l) h)
  intro a b hab
  exact hab

theorem range'_sorted (s n : Nat) : (List.range' s n).Sorted (· ≤ ·) := by
  induction n generalizing s with
  | zero => exact List.sorted_nil
  | succ n ih =>
    rw [List.range'_succ]
    refine List.Pairwise.cons ?_ (ih (s + 1))
    intro b hb
    have := List.mem_range'_1.mp hb
    omega

theorem validNums_sort_eq_range' {l : List PipelineLatch} {w s n : Nat}
    (hlen : l.length = w) (hperm : (validNums l).Perm (List.range' s n)) :
    validNums (id_sort w l) = List.range' s n := by
  refine List.eq_of_perm_of_sorted ?_ ?_ (range'_sorted s n)
  · exact (validNums_perm (id_sort_perm w l)).trans hperm
  · exact validNums_sorted (id_sort_sorted w l hlen)

theorem fe_take_none (n : Nat) :
    ∀ fe : List PipelineLatch, fe_take n fe = none → ¬ n ∈ validNums fe := by
  intro fe
  induction fe with
  | nil =>
    intro _ hmem
    simp [validNums_nil] at hmem
  | cons l rest ih =>
    intro hnone hmem
    unfold fe_take at hnone
    by_cases hc : l.valid && l.inst.inst_num == n
    · rw [if_pos hc] at hnone
      exact Option.noConfusion hnone
    · rw [if_neg hc] at hnone
      rw [validNums_cons] at hmem
      by_cases hv : l.valid = true
      · rw [if_pos hv] at hmem
        rcases List.mem_cons.mp hmem with heq | hmem2
        · exact hc (by simp [hv, heq])
        · match hrec : fe_take n rest with
          | some (x, ls') => rw [hrec] at hnone; exact Option.noConfusion hnone
          | none => exact ih hrec hmem2
      · rw [if_neg hv] at hmem
        match hrec : fe_take n rest with
        | some (x, ls') => rw [hrec] at hnone; exact Option.noConfusion hnone
        | none => exact ih hrec hmem

theorem fe_take_some (n : Nat) :
    ∀ (fe : List PipelineLatch) (x : PipelineLatch) (fe' : List PipelineLatch),
      fe_take n fe = some (x, fe') →
      x.valid = true ∧ x.inst.inst_num = n ∧ fe'.length = fe.length
      ∧ (validNums fe).Perm (n :: validNums fe') := by
  intro fe
  induction fe with
  | nil =>
    intro x fe' h
    exact Option.noConfusion h
  | cons l rest ih =>
    intro x fe' h
    unfold fe_take at h
    by_cases hc : l.valid && l.inst.inst_num == n
    · rw [if_pos hc] at h
      simp only [Option.some.injEq, Prod.mk.injEq] at h
      obtain ⟨hx, hfe⟩ := h
      have hc2 : l.valid = true ∧ l.inst.inst_num = n := by simpa using hc
      obtain ⟨hval, hnum'⟩ := hc2
      refine ⟨by rw [← hx]; exact hval, by rw [← hx]; exact hnum', ?_, ?_⟩
      · rw [← hfe]
        rfl
      · rw [← hfe, validNums_cons, if_pos hval, validNums_cons, hnum']
        rw [if_neg (by simp)]
    · rw [if_neg hc] at h
      match hrec : fe_take n rest with
      | some (x0, ls') =>
        rw [hrec] at h
        simp only [Option.some.injEq, Prod.mk.injEq] at h
        obtain ⟨hx, hfe⟩ := h
        obtain ⟨hv0, hn0, hl0, hp0⟩ := ih x0 ls' hrec
        refine ⟨by rw [← hx]; exact hv0, by rw [← hx]; exact hn0, ?_, ?_⟩
        · rw [← hfe]
          show ls'.length + 1 = rest.length + 1
          omega
        · rw [← hfe, validNums_cons, validNums_cons]
          by_cases hv : l.valid = true
          · rw [if_pos hv, if_pos hv]
            exact (hp0.cons l.inst.inst_num).trans (List.Perm.swap n l.inst.inst_num _)
          · rw [if_neg hv, if_neg hv]
            exact hp0
      | none =>
        rw [hrec] at h
        exact Option.noConfusion h

theorem decodeGo_spec :
    ∀ (idl fe : List PipelineLatch) (next r : Nat),
      1 ≤ next →
      (validNums fe).Perm (List.range' next r) →
      ∃ d, d ≤ r
        ∧ (decodeGo fe next idl).2.1 = next + d
        ∧ (decodeGo fe next idl).1.length = idl.length
        ∧ (decodeGo fe next idl).2.2.length = fe.length
        ∧ (validNums (decodeGo fe next idl).1).Perm (validNums idl ++ List.range' next d)
        ∧ (validNums (decodeGo fe next idl).2.2).Perm (List.range' (next + d) (r - d)) := by
  intro idl
  induction idl with
  | nil =>
    intro fe next r hnext hperm
    exact ⟨0, by omega, rfl, rfl, rfl, List.Perm.refl _, by simpa using hperm⟩
  | cons idl0 rest ih =>
    intro fe next r hnext hperm
    unfold decodeGo
    by_cases hskip : !idl0.stall && !idl0.valid
    · rw [if_pos hskip]
      match hrec : fe_take next fe with
      | some (x, fe1) =>
        obtain ⟨hxv, hxn, hxl, hxp⟩ := fe_take_some next fe x fe1 hrec
        have hr1 : 1 ≤ r := by
          have := hxp.length_eq
          have h2 := hperm.length_eq
          rw [List.length_range'] at h2
          simp at this
          omega
        have hfe1 : (validNums fe1).Perm (List.range' (next + 1) (r - 1)) := by
          obtain ⟨r', rfl⟩ : ∃ r', r = r' + 1 := ⟨r - 1, by omega⟩
          have hcons : List.range' next (r' + 1) = next :: List.range' (next + 1) r' := by
            rw [List.range'_succ]
          have hch := (hxp.symm.trans hperm).trans (by rw [hcons])
          simpa using hch.cons_inv
        obtain ⟨d', hd', hnext', hlen1, hlen2, hvp, hfp⟩ :=
          ih fe1 (next + 1) (r - 1) (by omega) hfe1
        refine ⟨d' + 1, by omega, ?_, ?_, ?_, ?_, ?_⟩
        · dsimp only
          rw [hnext']
          omega
        · dsimp only
          simp [hlen1]
        · dsimp only
          rw [hlen2, hxl]
        · dsimp only
          rw [validNums_cons, if_pos hxv, hxn]
          have hmid : (validNums rest ++ List.range' next (d' + 1)).Perm
              (next :: (validNums rest ++ List.range' (next + 1) d')) := by
            have hr' : List.range' next (d' + 1) = next :: List.range' (next + 1) d' := by
              rw [List.range'_succ]
            rw [hr']
            exact List.perm_middle
          have hstall : validNums (idl0 :: rest) = validNums rest := by
            rw [validNums_cons, if_neg (by
              intro hc
              simp [hc] at hskip)]
          rw [hstall]
          exact ((hvp.cons next).trans hmid.symm)
        · dsimp only
          refine hfp.trans ?_
          have h1 : next + 1 + d' = next + (d' + 1) := by omega
          have h2 : r - 1 - d' = r - (d' + 1) := by omega
          rw [h1, h2]
      | none =>
        have hnomem := fe_take_none next fe hrec
        have hr0 : r = 0 := by
          by_contra hc
          refine hnomem ?_
          refine hperm.mem_iff.mpr ?_
          refine List.mem_range'_1.mpr ?_
          omega
        obtain ⟨d', hd', hnext', hlen1, hlen2, hvp, hfp⟩ :=
          ih fe next r hnext hperm
        have hd0 : d' = 0 := by omega
        subst hd0
        subst hr0
        refine ⟨0, by omega, ?_, ?_, ?_, ?_, ?_⟩
        · dsimp only
          rw [hnext']
        · dsimp only
          simp [hlen1]
        · dsimp only
          rw [hlen2]
        · dsimp only
          rw [validNums_cons, validNums_cons]
          split
          · rename_i hv
            simp [hv] at hskip
          · simpa using hvp
        · dsimp only
          simpa using hfp
    · rw [if_neg hskip]
      obtain ⟨d', hd', hnext', hlen1, hlen2, hvp, hfp⟩ := ih fe next r hnext hperm
      refine ⟨d', hd', ?_, ?_, ?_, ?_, ?_⟩
      · dsimp only
        rw [hnext']
      · dsimp only
        simp [hlen1]
      · dsimp only
        rw [hlen2]
      · dsimp only
        rw [validNums_cons, validNums_cons]
        split
        · rw [List.cons_append]
          exact hvp.cons _
        · exact hvp
      · dsimp only
        exact hfp

theorem pipe_fetch_inst_eof (cfg : Config) (retired : Nat) (s : FetchSt)
    (l : PipelineLatch) (h : s.trace = []) :
    pipe_fetch_inst cfg retired s l =
      ({ s with halt_inst_num := s.last_inst_num
                halt := s.halt || decide (s.last_inst_num ≤ retired) },
       { l with valid := false }) := by
  unfold pipe_fetch_inst
  rw [h]

theorem pipe_fetch_inst_bad (cfg : Config) (retired : Nat) (s : FetchSt)
    (l : PipelineLatch) (r0 : TraceRec) (rest0 : List TraceRec)
    (h : s.trace = r0 :: rest0) (hop : cfg.NUM_OP_TYPES ≤ r0.op_type) :
    pipe_fetch_inst cfg retired s l =
      ({ trace := rest0
         last_inst_num := s.last_inst_num
         halt_inst_num := s.last_inst_num
         halt := s.halt || decide (s.last_inst_num ≤ retired) },
       { l with valid := false }) := by
  unfold pipe_fetch_inst
  rw [h]
  dsimp only
  rw [if_pos hop]

theorem pipe_fetch_inst_ok (cfg : Config) (retired : Nat) (s : FetchSt)
    (l : PipelineLatch) (r0 : TraceRec) (rest0 : List TraceRec)
    (h : s.trace = r0 :: rest0) (hop : ¬ cfg.NUM_OP_TYPES ≤ r0.op_type)
    (hlt : s.last_inst_num + 1 < UINT64_LIMIT) :
    (pipe_fetch_inst cfg retired s l).1 =
      { trace := rest0
        last_inst_num := s.last_inst_num + 1
        halt_inst_num := s.halt_inst_num
        halt := s.halt }
    ∧ (pipe_fetch_inst cfg retired s l).2.valid = true
    ∧ (pipe_fetch_inst cfg retired s l).2.inst.inst_num = s.last_inst_num + 1 := by
  unfold pipe_fetch_inst
  rw [h]
  dsimp only
  rw [if_neg hop]
  dsimp only
  rw [Nat.mod_eq_of_lt hlt]
  exact ⟨rfl, rfl, rfl⟩

theorem fetchGo_spec (cfg : Config) (retired : Nat) :
    ∀ (fe : List PipelineLatch) (s : FetchSt),
      s.last_inst_num + s.trace.length < UINT64_LIMIT →
      ∃ d,
        (fetchGo cfg retired s fe).1.last_inst_num = s.last_inst_num + d
        ∧ d + (fetchGo cfg retired s fe).1.trace.length ≤ s.trace.length
        ∧ (fetchGo cfg retired s fe).2.length = fe.length
        ∧ (validNums (fetchGo cfg retired s fe).2).Perm
            (validNums fe ++ List.range' (s.last_inst_num + 1) d) := by
  intro fe
  induction fe with
  | nil =>
    intro s hb
    exact ⟨0, by simp [fetchGo], by simp [fetchGo], rfl, by simp [fetchGo]⟩
  | cons l rest ih =>
    intro s hb
    unfold fetchGo
    by_cases hg : !l.stall && !l.valid
    · rw [if_pos hg]
      have hlv : l.valid = false := by
        rcases Bool.and_eq_true_iff.mp hg with ⟨_, h2⟩
        simpa using h2
      match htr : s.trace with
      | [] =>
        have heq := pipe_fetch_inst_eof cfg retired s l htr
        rw [heq]
        dsimp only
        obtain ⟨d, hlast, htl, hlen, hperm⟩ := ih
          { s with halt_inst_num := s.last_inst_num
                   halt := s.halt || decide (s.last_inst_num ≤ retired) }
          (by dsimp only; omega)
        refine ⟨d, by simpa using hlast, ?_, by simp [hlen], ?_⟩
        · have h2 := htl
          dsimp only at h2
          have hc : s.trace.length = 0 := by rw [htr]; rfl
          simp only [List.length_nil]
          omega
        · rw [validNums_cons, if_neg (by simp [hlv]), validNums_cons,
              if_neg (by simp [hlv])]
          simpa using hperm
      | r0 :: rest0 =>
        by_cases hop : cfg.NUM_OP_TYPES ≤ r0.op_type
        · have heq := pipe_fetch_inst_bad cfg retired s l r0 rest0 htr hop
          rw [heq]
          dsimp only
          obtain ⟨d, hlast, htl, hlen, hperm⟩ := ih
            { trace := rest0
              last_inst_num := s.last_inst_num
              halt_inst_num := s.last_inst_num
              halt := s.halt || decide (s.last_inst_num ≤ retired) }
            (by dsimp only; rw [htr] at hb; simp at hb; omega)
          refine ⟨d, by simpa using hlast, ?_, by simp [hlen], ?_⟩
          · have h2 := htl
            dsimp only at h2
            simp only [List.length_cons]
            omega
          · rw [validNums_cons, if_neg (by simp [hlv]), validNums_cons,
                if_neg (by simp [hlv])]
            simpa using hperm
        · have hlt : s.last_inst_num + 1 < UINT64_LIMIT := by
            rw [htr] at hb
            simp at hb
            omega
          obtain ⟨heq1, hv2, hn2⟩ := pipe_fetch_inst_ok cfg retired s l r0 rest0 htr hop hlt
          dsimp only
          rw [heq1]
          obtain ⟨d, hlast, htl, hlen, hperm⟩ := ih
            { trace := rest0
              last_inst_num := s.last_inst_num + 1
              halt_inst_num := s.halt_inst_num
              halt := s.halt }
            (by dsimp only; rw [htr] at hb; simp at hb; omega)
          refine ⟨d + 1, ?_, ?_, by simp [hlen], ?_⟩
          · dsimp only
            rw [hlast]
            dsimp only
            omega
          · have h2 := htl
            dsimp only at h2
            simp only [List.length_cons]
            omega
          · dsimp only
            rw [validNums_cons, if_pos hv2, hn2,
                validNums_cons, if_neg (by simp [hlv])]
            have hr' : List.range' (s.last_inst_num + 1) (d + 1)
                = (s.last_inst_num + 1) :: List.range' (s.last_inst_num + 2) d := by
              rw [List.range'_succ]
            rw [hr']
            refine List.Perm.trans ?_ List.perm_middle.symm
            refine List.Perm.cons _ ?_
            have := hperm
            dsimp only at this
            simpa using this
    · rw [if_neg hg]
      obtain ⟨d, hlast, htl, hlen, hperm⟩ := ih s hb
      refine ⟨d, hlast, htl, by simp [hlen], ?_⟩
      rw [validNums_cons, validNums_cons]
      split
      · rw [List.cons_append]
        exact hperm.cons _
      · exact hperm

theorem validNums_map_stall (lanes : List PipelineLatch) :
    validNums (lanes.map fun l => { l with stall := true }) = validNums lanes := by
  induction lanes with
  | nil => rfl
  | cons l rest ih =>
    rw [List.map_cons, validNums_cons, validNums_cons]
    dsimp only
    rw [ih]

theorem issueGo_spec (cfg : Config) {c : Nat} (h0 : 0 < cfg.NUM_ROB_ENTRIES) :
    ∀ (lanes : List PipelineLatch) (k r : Nat) (rob : ROB) (rat : RAT) (log : List Int),
      RingInv cfg.NUM_ROB_ENTRIES c k rob →
      validNums lanes = List.range' (c + 1 + k) r →
      ∃ j, j ≤ r
        ∧ RingInv cfg.NUM_ROB_ENTRIES c (k + j) (issueGo cfg false rob rat log lanes).1
        ∧ (issueGo cfg false rob rat log lanes).2.2.2.length = lanes.length
        ∧ validNums (issueGo cfg false rob rat log lanes).2.2.2
            = List.range' (c + 1 + k + j) (r - j) := by
  intro lanes
  induction lanes with
  | nil =>
    intro k r rob rat log hinv hvn
    have hr0 : r = 0 := by
      have := congrArg List.length hvn
      simpa using this.symm
    subst hr0
    exact ⟨0, by omega, hinv, rfl, rfl⟩
  | cons l rest ih =>
    intro k r rob rat log hinv hvn
    unfold issueGo
    rw [if_neg (by simp)]
    by_cases hv : l.valid = true
    · rw [if_pos (show ({ l with stall := false } : PipelineLatch).valid = true from hv)]
      rw [validNums_cons, if_pos hv] at hvn
      have hr1 : 1 ≤ r := by
        rcases r with _ | r
        · exact absurd hvn (by simp)
        · omega
      obtain ⟨r', rfl⟩ : ∃ r', r = r' + 1 := ⟨r - 1, by omega⟩
      rw [List.range'_succ] at hvn
      injection hvn with hlnum hrest
      by_cases hsp : k < cfg.NUM_ROB_ENTRIES
      · have hspace : rob_check_space rob = true := (ring_space_iff hinv h0).mpr hsp
        rw [if_pos hspace]
        dsimp only
        obtain ⟨hflag, hinv1⟩ := issueOne_ring cfg rob rat l.inst hinv h0 hsp hlnum
        rw [if_pos hflag]
        obtain ⟨j', hj', hinv', hlen', hvn'⟩ :=
          ih (k + 1) r' (issueOne cfg rob rat l.inst).1 (issueOne cfg rob rat l.inst).2.1
            (log ++ (issueOne cfg rob rat l.inst).2.2.2) hinv1
            (by rw [hrest]; congr 1 <;> omega)
        refine ⟨j' + 1, by omega, ?_, ?_, ?_⟩
        · have hkj : k + (j' + 1) = k + 1 + j' := by omega
          rw [hkj]
          exact hinv'
        · dsimp only
          simp [hlen']
        · dsimp only
          rw [validNums_cons, if_neg (by simp), hvn']
          congr 1 <;> omega
      · have hspace : ¬ rob_check_space rob = true := by
          intro hc
          exact hsp ((ring_space_iff hinv h0).mp hc)
        rw [if_neg hspace]
        dsimp only
        rw [issueGo_stalled_absorbs cfg rest rob rat log]
        refine ⟨0, by omega, hinv, ?_, ?_⟩
        · dsimp only
          simp
        · dsimp only
          rw [validNums_cons,
              if_pos (show ({ l with stall := true } : PipelineLatch).valid = true from hv),
              validNums_map_stall, hrest]
          show l.inst.inst_num :: _ = List.range' (c + 1 + k + 0) (r' + 1 - 0)
          rw [hlnum]
          have h1 : c + 1 + k + 0 = c + 1 + k := by omega
          have h2 : r' + 1 - 0 = r' + 1 := by omega
          rw [h1, h2, List.range'_succ]
    · rw [if_neg (show ¬ ({ l with stall := false } : PipelineLatch).valid = true from hv)]
      dsimp only
      rw [validNums_cons, if_neg hv] at hvn
      obtain ⟨j, hj, hinv', hlen', hvn'⟩ := ih k r rob rat log hinv hvn
      refine ⟨j, hj, hinv', ?_, ?_⟩
      · simp [hlen']
      · rw [validNums_cons,
            if_neg (show ¬ ({ l with stall := false } : PipelineLatch).valid = true from hv),
            hvn']

theorem range'_merge (s a b : Nat) :
    List.range' s a ++ List.range' (s + a) b = List.range' s (a + b) := by
  induction a generalizing s with
  | zero => simp
  | succ a ih =>
    rw [List.range'_succ, List.cons_append]
    rw [show s + (a + 1) = s + 1 + a from by omega]
    rw [ih (s + 1)]
    rw [show a + 1 + b = a + b + 1 from by omega, List.range'_succ]

theorem validNums_set_stall (l : List PipelineLatch) :
    ∀ (i : Nat) (v : Bool),
      validNums (l.set i { l.getD i default with stall := v }) = validNums l := by
  induction l with
  | nil => intro i v; rfl
  | cons a t ih =>
    intro i v
    cases i with
    | zero =>
      rw [List.getD_cons_zero, List.set_cons_zero, validNums_cons, validNums_cons]
    | succ n =>
      rw [List.getD_cons_succ, List.set_cons_succ, validNums_cons, validNums_cons]
      rw [ih n v]

theorem ring_init (R : Nat) (h0 : 0 < R) : RingInv R 0 0 (rob_init R) := by
  refine ⟨?_, h0, h0, by omega, ?_, ?_, ?_⟩
  · show (List.replicate R _).length = R
    rw [List.length_replicate]
  · show (0 : Nat) = (0 + 0) % R
    simp
  · intro m hm
    omega
  · intro i hi hv
    exfalso
    have : robGet (rob_init R) i
        = { valid := false, exec := false, ready := false, inst := default } := by
      show (List.replicate R _).getD i default = _
      rw [List.getD_eq_getElem?_getD, List.getElem?_replicate, if_pos hi]
      rfl
    rw [this] at hv
    exact Bool.noConfusion hv

theorem commit_lane_rob (cfg : Config) (s : CommitSt) (i : Nat) :
    (commit_lane cfg s i).rob =
      if rob_check_head s.rob
      then (rob_remove_head cfg.NUM_ROB_ENTRIES s.rob).1
      else s.rob := by
  unfold commit_lane
  by_cases hh : rob_check_head s.rob = true
  · rw [if_pos hh, if_pos hh]
    have hpair : rob_remove_head cfg.NUM_ROB_ENTRIES s.rob
        = ((rob_remove_head cfg.NUM_ROB_ENTRIES s.rob).1,
           (rob_remove_head cfg.NUM_ROB_ENTRIES s.rob).2) := Prod.mk.eta.symm
    match hrm : rob_remove_head cfg.NUM_ROB_ENTRIES s.rob with
    | (rob1, some headEntry) =>
      dsimp only
      split <;> rfl
    | (rob1, none) => rfl
  · rw [if_neg hh, if_neg hh]

theorem commit_lane_spec (cfg : Config) (s : CommitSt) (i : Nat) {c k : Nat}
    (h0 : 0 < cfg.NUM_ROB_ENTRIES)
    (hinv : RingInv cfg.NUM_ROB_ENTRIES c k s.rob)
    (hret : s.stat_retired_inst = c)
    (hc : c + k < UINT64_LIMIT) :
    ∃ d, d ≤ 1 ∧ d ≤ k
      ∧ RingInv cfg.NUM_ROB_ENTRIES (c + d) (k - d) (commit_lane cfg s i).rob
      ∧ (commit_lane cfg s i).stat_retired_inst = c + d
      ∧ (commit_lane cfg s i).retired_log = s.retired_log ++ List.range' (c + 1) d
      ∧ (commit_lane cfg s i).ID_latch.length = s.ID_latch.length
      ∧ validNums (commit_lane cfg s i).ID_latch = validNums s.ID_latch
      ∧ (commit_lane cfg s i).halt_inst_num = s.halt_inst_num := by
  by_cases hh : rob_check_head s.rob = true
  · obtain ⟨hk1, hsome, hnum, hinv'⟩ := ring_remove hinv h0 hh
    match hrm : rob_remove_head cfg.NUM_ROB_ENTRIES s.rob with
    | (rob1, oinst) =>
      rw [hrm] at hsome hinv'
      dsimp only at hsome hinv'
      subst hsome
      have hred : commit_lane cfg s i =
          (let s1 := pipe_commit_inst { s with rob := rob1 }
            (robGet s.rob s.rob.head_ptr).inst
           let idx := rat_get_remap s1.rat (robGet s.rob s.rob.head_ptr).inst.dest_reg
           let s2 := { s1 with rat_log :=
             s1.rat_log ++ [(robGet s.rob s.rob.head_ptr).inst.dest_reg] }
           let s3 :=
             if idx = (robGet s.rob s.rob.head_ptr).inst.dr_tag then
               { s2 with
                 rat := rat_reset_entry s2.rat (robGet s.rob s.rob.head_ptr).inst.dest_reg
                 rat_log := s2.rat_log ++ [(robGet s.rob s.rob.head_ptr).inst.dest_reg] }
             else s2
           let stallv := if rob_check_space s3.rob then false else true
           let slot := { s3.ID_latch.getD i default with stall := stallv }
           { s3 with ID_latch := s3.ID_latch.set i slot }) := by
        unfold commit_lane
        rw [if_pos hh, hrm]
      rw [hred]
      refine ⟨1, le_refl 1, hk1, ?_, ?_, ?_, ?_, ?_, ?_⟩
      · dsimp only [pipe_commit_inst]
        split <;> exact hinv'
      · dsimp only [pipe_commit_inst]
        split <;>
          · show (s.stat_retired_inst + 1) % UINT64_LIMIT = c + 1
            rw [hret, Nat.mod_eq_of_lt (by omega)]
      · dsimp only [pipe_commit_inst]
        split <;>
          · show s.retired_log ++ [(robGet s.rob s.rob.head_ptr).inst.inst_num] = _
            rw [hnum, List.range'_one]
      · dsimp only [pipe_commit_inst]
        split <;>
          · show (List.set _ _ _).length = s.ID_latch.length
            rw [List.length_set]
      · dsimp only [pipe_commit_inst]
        split <;>
          · exact validNums_set_stall s.ID_latch i _
      · dsimp only [pipe_commit_inst]
        split <;> rfl
  · have hred : commit_lane cfg s i = s := by
      unfold commit_lane
      rw [if_neg hh]
    rw [hred]
    exact ⟨0, by omega, by omega, hinv, by omega, by simp, rfl, rfl, rfl⟩

theorem commitGo_spec (cfg : Config) (h0 : 0 < cfg.NUM_ROB_ENTRIES) :
    ∀ (n i : Nat) (s : CommitSt) (c k : Nat),
      RingInv cfg.NUM_ROB_ENTRIES c k s.rob →
      s.stat_retired_inst = c →
      c + k < UINT64_LIMIT →
      ∃ d, d ≤ k
        ∧ RingInv cfg.NUM_ROB_ENTRIES (c + d) (k - d) (commitGo cfg n i s).rob
        ∧ (commitGo cfg n i s).stat_retired_inst = c + d
        ∧ (commitGo cfg n i s).retired_log = s.retired_log ++ List.range' (c + 1) d
        ∧ (commitGo cfg n i s).ID_latch.length = s.ID_latch.length
        ∧ validNums (commitGo cfg n i s).ID_latch = validNums s.ID_latch
        ∧ (commitGo cfg n i s).halt_inst_num = s.halt_inst_num := by
  intro n
  induction n with
  | zero =>
    intro i s c k hinv hret hc
    refine ⟨0, by omega, hinv, hret, ?_, rfl, rfl, rfl⟩
    show s.retired_log = s.retired_log ++ List.range' (c + 1) 0
    simp
  | succ n ih =>
    intro i s c k hinv hret hc
    obtain ⟨d1, hd1, hd1k, hinv1, hret1, hlog1, hlen1, hvn1, hh1⟩ :=
      commit_lane_spec cfg s i h0 hinv hret hc
    obtain ⟨d2, hd2k, hinv2, hret2, hlog2, hlen2, hvn2, hh2⟩ :=
      ih (i + 1) (commit_lane cfg s i) (c + d1) (k - d1) hinv1 hret1 (by omega)
    have hgo : commitGo cfg (n + 1) i s = commitGo cfg n (i + 1) (commit_lane cfg s i) := rfl
    rw [hgo]
    refine ⟨d1 + d2, by omega, ?_, ?_, ?_, ?_, ?_, ?_⟩
    · have e1 : c + (d1 + d2) = c + d1 + d2 := by omega
      have e2 : k - (d1 + d2) = k - d1 - d2 := by omega
      rw [e1, e2]
      exact hinv2
    · rw [hret2]
      omega
    · rw [hlog2, hlog1, List.append_assoc]
      have e1 : c + d1 + 1 = c + 1 + d1 := by omega
      rw [e1, range'_merge]
    · rw [hlen2, hlen1]
    · rw [hvn2, hvn1]
    · rw [hh2, hh1]

theorem runLoop_runCycles (cfg : Config) :
    ∀ (fuel : Nat) (p : Pipeline),
      ∃ m, m ≤ fuel ∧ runLoop cfg fuel p = runCycles cfg m p := by
  intro fuel
  induction fuel with
  | zero =>
    intro p
    exact ⟨0, le_refl 0, rfl⟩
  | succ n ih =>
    intro p
    show ∃ m, m ≤ n + 1 ∧ (if p.halt then p else runLoop cfg n (pipe_cycle cfg p)) = _
    by_cases hhalt : p.halt
    · rw [if_pos hhalt]
      exact ⟨0, by omega, rfl⟩
    · rw [if_neg hhalt]
      obtain ⟨m, hm, heq⟩ := ih (pipe_cycle cfg p)
      exact ⟨m + 1, by omega, heq⟩

theorem invK_commit (cfg : Config) (p : Pipeline) (h0 : 0 < cfg.NUM_ROB_ENTRIES)
    (h : InvK cfg p) : InvK cfg (pipe_cycle_commit cfg p) := by
  obtain ⟨c, k, hinv, hret, hlog, hck, hnd, hid, hfe, hlen, hb⟩ := h
  have hc : c + k < UINT64_LIMIT := by omega
  obtain ⟨d, hdk, hinv', hret', hlog', hlen', hvn', hh'⟩ :=
    commitGo_spec cfg h0 cfg.PIPE_WIDTH 0
      { rob := p.rob, rat := p.rat, ID_latch := p.ID_latch
        stat_retired_inst := p.stat_retired_inst
        halt_inst_num := p.halt_inst_num, halt := p.halt
        retired_log := p.retired_log, rat_log := p.rat_log }
      c k hinv hret hc
  refine ⟨c + d, k - d, hinv', hret', ?_, ?_, ?_, ?_, ?_, ?_, ?_⟩
  · show (commitGo cfg cfg.PIPE_WIDTH 0 _).retired_log = _
    rw [hlog']
    dsimp only
    rw [hlog]
    rw [show c + 1 = 1 + c from by omega, range'_merge]
  · show c + d + 1 + (k - d) ≤ p.next_decode_num
    omega
  · show p.next_decode_num ≤ p.last_inst_num + 1
    exact hnd
  · show (validNums (commitGo cfg cfg.PIPE_WIDTH 0 _).ID_latch).Perm _
    rw [hvn']
    dsimp only
    have he : c + d + 1 + (k - d) = c + 1 + k := by omega
    rw [he]
    exact hid
  · exact hfe
  · show (commitGo cfg cfg.PIPE_WIDTH 0 _).ID_latch.length = cfg.PIPE_WIDTH
    rw [hlen']
    exact hlen
  · exact hb

theorem pipe_cycle_exe_fields (cfg : Config) (p : Pipeline) :
    (pipe_cycle_exe cfg p).rob = p.rob
    ∧ (pipe_cycle_exe cfg p).ID_latch = p.ID_latch
    ∧ (pipe_cycle_exe cfg p).FE_latch = p.FE_latch
    ∧ (pipe_cycle_exe cfg p).stat_retired_inst = p.stat_retired_inst
    ∧ (pipe_cycle_exe cfg p).retired_log = p.retired_log
    ∧ (pipe_cycle_exe cfg p).next_decode_num = p.next_decode_num
    ∧ (pipe_cycle_exe cfg p).last_inst_num = p.last_inst_num
    ∧ (pipe_cycle_exe cfg p).trace = p.trace := by
  unfold pipe_cycle_exe
  by_cases h1 : cfg.LOAD_EXE_CYCLES = 1
  · rw [if_pos h1]
    exact ⟨rfl, rfl, rfl, rfl, rfl, rfl, rfl, rfl⟩
  · rw [if_neg h1]
    dsimp only
    split
    · exact ⟨rfl, rfl, rfl, rfl, rfl, rfl, rfl, rfl⟩
    · exact ⟨rfl, rfl, rfl, rfl, rfl, rfl, rfl, rfl⟩

theorem invK_exe (cfg : Config) (p : Pipeline)
    (h : InvK cfg p) : InvK cfg (pipe_cycle_exe cfg p) := by
  obtain ⟨c, k, hinv, hret, hlog, hck, hnd, hid, hfe, hlen, hb⟩ := h
  obtain ⟨e1, e2, e3, e4, e5, e6, e7, e8⟩ := pipe_cycle_exe_fields cfg p
  exact ⟨c, k, by rw [e1]; exact hinv, by rw [e4]; exact hret, by rw [e5]; exact hlog,
    by rw [e6]; exact hck, by rw [e6, e7]; exact hnd, by rw [e2, e6]; exact hid,
    by rw [e3, e6, e7]; exact hfe, by rw [e2]; exact hlen, by rw [e7, e8]; exact hb⟩

theorem invK_writeback (cfg : Config) (p : Pipeline)
    (h : InvK cfg p) : InvK cfg (pipe_cycle_writeback cfg p) := by
  obtain ⟨c, k, hinv, hret, hlog, hck, hnd, hid, hfe, hlen, hb⟩ := h
  exact ⟨c, k,
    ringInv_of_ringEq (wbGo_ringEq cfg p.stat_num_cycle p.EX_latch p.rob p.wb_log) hinv,
    hret, hlog, hck, hnd, hid, hfe, hlen, hb⟩

theorem invK_schedule (cfg : Config) (p : Pipeline)
    (h : InvK cfg p) : InvK cfg (pipe_cycle_schedule cfg p) := by
  obtain ⟨c, k, hinv, hret, hlog, hck, hnd, hid, hfe, hlen, hb⟩ := h
  exact ⟨c, k,
    ringInv_of_ringEq (schedGo_ringEq cfg p.stat_num_cycle p.SC_latch p.rob p.sched_log) hinv,
    hret, hlog, hck, hnd, hid, hfe, hlen, hb⟩

theorem invK_issue (cfg : Config) (p : Pipeline) (h0 : 0 < cfg.NUM_ROB_ENTRIES)
    (h : InvK cfg p) : InvK cfg (pipe_cycle_issue cfg p) := by
  obtain ⟨c, k, hinv, hret, hlog, hck, hnd, hid, hfe, hlen, hb⟩ := h
  have hsorted : validNums (id_sort cfg.PIPE_WIDTH p.ID_latch)
      = List.range' (c + 1 + k) (p.next_decode_num - (c + 1 + k)) :=
    validNums_sort_eq_range' hlen hid
  obtain ⟨j, hj, hinv', hlen', hvn'⟩ :=
    issueGo_spec cfg h0 (id_sort cfg.PIPE_WIDTH p.ID_latch)
      k (p.next_decode_num - (c + 1 + k)) p.rob p.rat [] hinv hsorted
  refine ⟨c, k + j, hinv', hret, hlog, ?_, hnd, ?_, hfe, ?_, hb⟩
  · show c + 1 + (k + j) ≤ p.next_decode_num
    omega
  · show (validNums (issueGo cfg false p.rob p.rat []
        (id_sort cfg.PIPE_WIDTH p.ID_latch)).2.2.2).Perm
      (List.range' (c + 1 + (k + j)) (p.next_decode_num - (c + 1 + (k + j))))
    rw [hvn']
    have e1 : c + 1 + (k + j) = c + 1 + k + j := by omega
    have e2 : p.next_decode_num - (c + 1 + k + j)
        = p.next_decode_num - (c + 1 + k) - j := by omega
    rw [e1, e2]
  · show (issueGo cfg false p.rob p.rat []
        (id_sort cfg.PIPE_WIDTH p.ID_latch)).2.2.2.length = cfg.PIPE_WIDTH
    rw [hlen', (id_sort_perm cfg.PIPE_WIDTH p.ID_latch).length_eq]
    exact hlen

theorem invK_decode (cfg : Config) (p : Pipeline)
    (h : InvK cfg p) : InvK cfg (pipe_cycle_decode p) := by
  obtain ⟨c, k, hinv, hret, hlog, hck, hnd, hid, hfe, hlen, hb⟩ := h
  obtain ⟨d, hd, hnext', hlen1, hlen2, hvp, hfp⟩ :=
    decodeGo_spec p.ID_latch p.FE_latch p.next_decode_num
      (p.last_inst_num + 1 - p.next_decode_num) (by omega) hfe
  refine ⟨c, k, hinv, hret, hlog, ?_, ?_, ?_, ?_, ?_, hb⟩
  · show c + 1 + k ≤ (decodeGo p.FE_latch p.next_decode_num p.ID_latch).2.1
    rw [hnext']
    omega
  · show (decodeGo p.FE_latch p.next_decode_num p.ID_latch).2.1 ≤ p.last_inst_num + 1
    rw [hnext']
    omega
  · show (validNums (decodeGo p.FE_latch p.next_decode_num p.ID_latch).1).Perm
        (List.range' (c + 1 + k)
          ((decodeGo p.FE_latch p.next_decode_num p.ID_latch).2.1 - (c + 1 + k)))
    rw [hnext']
    refine hvp.trans ?_
    refine (hid.append (List.Perm.refl (List.range' p.next_decode_num d))).trans ?_
    have e1 : List.range' p.next_decode_num d
        = List.range' (c + 1 + k + (p.next_decode_num - (c + 1 + k))) d := by
      congr 1
      omega
    rw [e1, range'_merge]
    have e2 : p.next_decode_num - (c + 1 + k) + d
        = p.next_decode_num + d - (c + 1 + k) := by omega
    rw [e2]
  · show (validNums (decodeGo p.FE_latch p.next_decode_num p.ID_latch).2.2).Perm
        (List.range' (decodeGo p.FE_latch p.next_decode_num p.ID_latch).2.1
          (p.last_inst_num + 1 - (decodeGo p.FE_latch p.next_decode_num p.ID_latch).2.1))
    rw [hnext']
    have e : p.last_inst_num + 1 - (p.next_decode_num + d)
        = p.last_inst_num + 1 - p.next_decode_num - d := by omega
    rw [e]
    exact hfp
  · show (decodeGo p.FE_latch p.next_decode_num p.ID_latch).1.length = cfg.PIPE_WIDTH
    rw [hlen1]
    exact hlen

theorem invK_fetch (cfg : Config) (p : Pipeline)
    (h : InvK cfg p) : InvK cfg (pipe_cycle_fetch cfg p) := by
  obtain ⟨c, k, hinv, hret, hlog, hck, hnd, hid, hfe, hlen, hb⟩ := h
  obtain ⟨d, hlast, htl, hlen2, hperm⟩ :=
    fetchGo_spec cfg p.stat_retired_inst p.FE_latch
      { trace := p.trace, last_inst_num := p.last_inst_num
        halt_inst_num := p.halt_inst_num, halt := p.halt }
      (by dsimp only; exact hb)
  dsimp only at hlast htl hperm
  refine ⟨c, k, hinv, hret, hlog, hck, ?_, hid, ?_, hlen, ?_⟩
  · show p.next_decode_num ≤ (fetchGo cfg p.stat_retired_inst
      { trace := p.trace, last_inst_num := p.last_inst_num
        halt_inst_num := p.halt_inst_num, halt := p.halt }
      p.FE_latch).1.last_inst_num + 1
    rw [hlast]
    omega
  · show (validNums (fetchGo cfg p.stat_retired_inst
      { trace := p.trace, last_inst_num := p.last_inst_num
        halt_inst_num := p.halt_inst_num, halt := p.halt } p.FE_latch).2).Perm
      (List.range' p.next_decode_num
        ((fetchGo cfg p.stat_retired_inst
          { trace := p.trace, last_inst_num := p.last_inst_num
            halt_inst_num := p.halt_inst_num, halt := p.halt }
          p.FE_latch).1.last_inst_num + 1 - p.next_decode_num))
    rw [hlast]
    refine hperm.trans ?_
    refine (hfe.append (List.Perm.refl (List.range' (p.last_inst_num + 1) d))).trans ?_
    have e1 : List.range' (p.last_inst_num + 1) d
        = List.range' (p.next_decode_num
            + (p.last_inst_num + 1 - p.next_decode_num)) d := by
      congr 1
      omega
    rw [e1, range'_merge]
    have e2 : p.last_inst_num + 1 - p.next_decode_num + d
        = p.last_inst_num + d + 1 - p.next_decode_num := by omega
    rw [e2]
  · show (fetchGo cfg p.stat_retired_inst
      { trace := p.trace, last_inst_num := p.last_inst_num
        halt_inst_num := p.halt_inst_num, halt := p.halt }
      p.FE_latch).1.last_inst_num
      + (fetchGo cfg p.stat_retired_inst
          { trace := p.trace, last_inst_num := p.last_inst_num
            halt_inst_num := p.halt_inst_num, halt := p.halt }
          p.FE_latch).1.trace.length < UINT64_LIMIT
    rw [hlast]
    omega

theorem invK_cycle (cfg : Config) (p : Pipeline) (h0 : 0 < cfg.NUM_ROB_ENTRIES)
    (h : InvK cfg p) : InvK cfg (pipe_cycle cfg p) := by
  have h1 : InvK cfg { p with stat_num_cycle := (p.stat_num_cycle + 1) % UINT64_LIMIT } := by
    obtain ⟨c, k, hg⟩ := h
    exact ⟨c, k, hg⟩
  exact invK_fetch cfg _ (invK_decode cfg _ (invK_issue cfg _ h0 (invK_schedule cfg _
    (invK_exe cfg _ (invK_writeback cfg _ (invK_commit cfg _ h0 h1))))))

theorem invK_runCycles (cfg : Config) (h0 : 0 < cfg.NUM_ROB_ENTRIES) :
    ∀ (n : Nat) (p : Pipeline), InvK cfg p → InvK cfg (runCycles cfg n p) := by
  intro n
  induction n with
  | zero =>
    intro p h
    exact h
  | succ n ih =>
    intro p h
    exact ih (pipe_cycle cfg p) (invK_cycle cfg p h0 h)

theorem validNums_replicate_empty :
    ∀ n, validNums (List.replicate n emptyLatch) = [] := by
  intro n
  induction n with
  | zero => rfl
  | succ n ih =>
    rw [List.replicate_succ, validNums_cons, if_neg (by decide)]
    exact ih

theorem invK_init (cfg : Config) (trace : List TraceRec)
    (h0 : 0 < cfg.NUM_ROB_ENTRIES) (htr : trace.length < UINT64_LIMIT) :
    InvK cfg (pipe_init cfg trace) := by
  refine ⟨0, 0, ring_init cfg.NUM_ROB_ENTRIES h0, rfl, rfl, ?_, ?_,
    ?_, ?_, ?_, ?_⟩
  · show 0 + 1 + 0 ≤ 1
    omega
  · show (1 : Nat) ≤ 0 + 1
    omega
  · show (validNums (List.replicate cfg.PIPE_WIDTH emptyLatch)).Perm
      (List.range' (0 + 1 + 0) (1 - (0 + 1 + 0)))
    rw [validNums_replicate_empty]
    exact List.Perm.refl _
  · show (validNums (List.replicate cfg.PIPE_WIDTH emptyLatch)).Perm
      (List.range' 1 (0 + 1 - 1))
    rw [validNums_replicate_empty]
    exact List.Perm.refl _
  · show (List.replicate cfg.PIPE_WIDTH emptyLatch).length = cfg.PIPE_WIDTH
    rw [List.length_replicate]
  · show 0 + trace.length < UINT64_LIMIT
    omega

/-- **C1**: for every configuration (with a nonempty ROB) and every trace
short enough that the 64-bit counters cannot wrap, the sequence of
`inst_num` values of committed (retired) instructions over a whole run —
the ghost `retired_log`, in commit order — is exactly `1, 2, 3, ...`:
the list equals `List.range' 1` of its own length, for every cycle
count, and every halt-bounded run (`runLoop`) is one of these cycle
counts; moreover commit only ever removes the ROB head (`commit_lane`
changes the ROB exactly by `rob_remove_head` and only when
`rob_check_head` holds), and `rob_check_head` holds exactly when the
head slot is valid and ready. -/
theorem commit_order (cfg : Config) (trace : List TraceRec)
    (h0 : 0 < cfg.NUM_ROB_ENTRIES) (htr : trace.length < UINT64_LIMIT) :
    (∀ n : Nat, (runCycles cfg n (pipe_init cfg trace)).retired_log
        = List.range' 1 (runCycles cfg n (pipe_init cfg trace)).retired_log.length)
    ∧ (∀ fuel : Nat, ∃ m, m ≤ fuel ∧
        runLoop cfg fuel (pipe_init cfg trace) = runCycles cfg m (pipe_init cfg trace))
    ∧ (∀ (s : CommitSt) (i : Nat),
        (commit_lane cfg s i).rob
          = if rob_check_head s.rob
            then (rob_remove_head cfg.NUM_ROB_ENTRIES s.rob).1
            else s.rob)
    ∧ (∀ rob : ROB, rob_check_head rob = true ↔
        ((robGet rob rob.head_ptr).valid = true
          ∧ (robGet rob rob.head_ptr).ready = true)) := by
  refine ⟨?_, ?_, ?_, ?_⟩
  · intro n
    obtain ⟨c, k, hinv, hret, hlog, hrest⟩ :=
      invK_runCycles cfg h0 n (pipe_init cfg trace) (invK_init cfg trace h0 htr)
    rw [hlog, List.length_range']
  · intro fuel
    exact runLoop_runCycles cfg fuel (pipe_init cfg trace)
  · intro s i
    exact commit_lane_rob cfg s i
  · intro rob
    exact rob_check_head_iff rob

/-- Witness for C1: the scalar RAW run retires its instructions in the
order `1, 2`. -/
theorem commit_order_witness :
    0 < cfgScalar.NUM_ROB_ENTRIES ∧ traceRAW.length < UINT64_LIMIT
    ∧ (runCycles cfgScalar 12 (pipe_init cfgScalar traceRAW)).retired_log
        = List.range' 1
            (runCycles cfgScalar 12 (pipe_init cfgScalar traceRAW)).retired_log.length :=
  ⟨by decide, by decide,
   (commit_order cfgScalar traceRAW (by decide) (by decide)).1 12⟩

end PipeSim
